import Mathlib

/-!
# Verification of the toy DBMS core

A shallow embedding of the repository's three source modules
(`toydbms/physical.py`, `toydbms/execution.py`, `toydbms/query.py`) and
proofs about the claims of the specification.

Modelling conventions:

* Byte buffers are `List Nat`, one entry per byte.  All reachable buffers hold
  entries `< 256`; the embedding does not enforce this on arbitrary inputs.
* Python `struct.pack("<H", v)` / `struct.pack("<I", v)` are embedded as the
  little-endian byte lists of `v`; the pack is exact whenever `v` fits in the
  target width, which holds on every state reachable with a page size
  `≤ 65535` (the slotted u16 format's domain; the source default is 4096).
* `struct.unpack` on a too-short buffer raises in Python; readers of record
  data model this with `Option`.  The two header reads (`num_records` and the
  slot array) use a `getD`-style totalisation, exact for every buffer of the
  page format (length ≥ 4).
* Python `Text` values are unicode strings marshalled through UTF-8.  The
  embedding works at the byte level (`Value.text` holds the UTF-8 image);
  UTF-8 is order-preserving and injective, so string equality/ordering facts
  transfer verbatim.
* Fallible operations return `Except DbError` / `Option`; an `Except.error`
  corresponds to a raised Python exception, and code that does not catch it
  propagates the error, as the source does.
-/

namespace ToyDbms

/-! ## Byte-buffer primitives -/

/-- Little-endian u16 read at offset `i`, as done by
`struct.unpack("<H", buff[i:i+2])`.  Out-of-range bytes read as 0; on the page
format this read is always in range. -/
def readU16 (b : List Nat) (i : Nat) : Nat :=
  b.getD i 0 + 256 * b.getD (i + 1) 0

/-- Little-endian bytes of a u16, as written by `struct.pack("<H", v)`
(exact for `v < 65536`). -/
def u16Bytes (v : Nat) : List Nat := [v % 256, v / 256 % 256]

/-- Little-endian bytes of a u32, as written by `struct.pack("<I", v)`
(used for `v < 2^32` only). -/
def u32Bytes (v : Nat) : List Nat :=
  [v % 256, v / 256 % 256, v / 65536 % 256, v / 16777216 % 256]

/-- In-place slice assignment `buff[i:i+len(d)] = d` on a byte buffer.
If the write reaches past the end the buffer grows, like a Python file
write past EOF; for in-range writes the length is unchanged. -/
def writeBytes (b : List Nat) (i : Nat) (d : List Nat) : List Nat :=
  b.take i ++ d ++ b.drop (i + d.length)

/-- The Python slice `b[i:j]` (for `0 ≤ i`, `0 ≤ j`). -/
def slice (b : List Nat) (i j : Nat) : List Nat := (b.take j).drop i

/-! ## Values and column codecs (`DType`) -/

/-- A decoded column value: Python `int` (for `UInt32` columns) or `str`
(for `Text` columns, represented by its UTF-8 byte image). -/
inductive Value
  | uint (n : Nat)
  | text (bs : List Nat)
deriving DecidableEq, Repr

/-- The closed set of column types. -/
inductive ColType
  | uint32
  | text
deriving DecidableEq, Repr

abbrev Schema := List (String × ColType)
abbrev Row := List Value

/-- Lexicographic order on byte lists: the order Python `str` comparison
induces on UTF-8 images (UTF-8 is order-preserving). -/
def bytesLe : List Nat → List Nat → Bool
  | [], _ => true
  | _ :: _, [] => false
  | a :: as, b :: bs => if a < b then true else if b < a then false else bytesLe as bs

/-- Comparison used by `list.sort` keys.  Cross-type comparisons never occur
in a well-typed table (Python would raise `TypeError`); the embedding
totalises them so that the relation is total and transitive. -/
def Value.le : Value → Value → Bool
  | .uint a, .uint b => a ≤ b
  | .text a, .text b => bytesLe a b
  | .uint _, .text _ => true
  | .text _, .uint _ => false

/-- Python `DType.marshall`: `UInt32.marshall` is `struct.pack("<I", v)` (raises —
`none` — outside u32 range or on a non-int), `Text.marshall` is a 1-byte
length prefix plus the UTF-8 bytes (raises if the length exceeds 255). -/
def marshalValue : ColType → Value → Option (List Nat)
  | .uint32, .uint n => if n < 4294967296 then some (u32Bytes n) else none
  | .uint32, .text _ => none
  | .text, .text bs => if bs.length ≤ 255 then some (bs.length :: bs) else none
  | .text, .uint _ => none

/-- The record image built by `HeapPage.insert_record`:
`b"".join(dtype.marshall(val) for (_, dtype), val in zip(schema, record))`.
Note the `zip`: extra values of the row are silently dropped and a short row
yields a short record. -/
def marshalRecord (schema : Schema) (record : List Value) : Option (List Nat) :=
  ((schema.zip record).mapM (fun p => marshalValue p.1.2 p.2)).map List.flatten

/-- Python `DType.unmarshall` on a byte cursor: consumes one value, returns it and
the rest of the cursor.  `none` models the `struct.error` on a short read. -/
def unmarshalValue : ColType → List Nat → Option (Value × List Nat)
  | .uint32, b0 :: b1 :: b2 :: b3 :: rest =>
      some (.uint (b0 + 256 * b1 + 65536 * b2 + 16777216 * b3), rest)
  | .uint32, _ => none
  | .text, len :: rest => some (.text (rest.take len), rest.drop len)
  | .text, [] => none

/-- Schema-directed sequential decode of one record, as in
`HeapPage.__next__`.  Trailing bytes of the cursor are left unread. -/
def unmarshalRecord : Schema → List Nat → Option (List Value × List Nat)
  | [], rest => some ([], rest)
  | (_, ty) :: cols, bs =>
    match unmarshalValue ty bs with
    | none => none
    | some (v, rest) =>
      match unmarshalRecord cols rest with
      | none => none
      | some (vs, rest') => some (v :: vs, rest')

/-- One decimal digit of a `Char`, if it is one. -/
def charDigit? (c : Char) : Option Nat :=
  if 48 ≤ c.toNat ∧ c.toNat ≤ 57 then some (c.toNat - 48) else none

/-- Accumulating decimal parse of a character list. -/
def parseNatAux : List Char → Nat → Option Nat
  | [], acc => some acc
  | c :: cs, acc =>
    match charDigit? c with
    | none => none
    | some d => parseNatAux cs (acc * 10 + d)

/-- Python `int(s)` for canonical (non-empty, all-digit) decimal literals,
the only shape the repository feeds it. -/
def parseNat (s : String) : Option Nat :=
  match s.data with
  | [] => none
  | cs => parseNatAux cs 0

/-- The UTF-8 encoding of one character. -/
def charUTF8 (c : Char) : List Nat :=
  let n := c.toNat
  if n < 128 then [n]
  else if n < 2048 then [192 + n / 64, 128 + n % 64]
  else if n < 65536 then [224 + n / 4096, 128 + n / 64 % 64, 128 + n % 64]
  else [240 + n / 262144, 128 + n / 4096 % 64, 128 + n / 64 % 64, 128 + n % 64]

/-- Python `value.encode("utf8")`: the UTF-8 byte image of a string. -/
def strBytes (s : String) : List Nat := (s.data.map charUTF8).flatten

/-- Python `DType.from_str`.  `UInt32.from_str` is `int(value)` (modelled for
canonical decimal literals), `Text.from_str` is the identity (represented by
the UTF-8 image of the string). -/
def fromStr : ColType → String → Option Value
  | .uint32, s => (parseNat s).map .uint
  | .text, s => some (.text (strBytes s))

/-! ## Errors -/

/-- The exceptions the source can raise (semantic kinds, per the spec's §7).
`codec` stands for `struct.error` / `ValueError` from codecs, and
`unknownColumn` for the `ValueError` of `list.index` on a missing column. -/
inductive DbError
  | insufficientSpace
  | codec
  | corruptedStorage
  | unknownColumn
deriving DecidableEq, Repr

/-! ## HeapPage (`toydbms/physical.py`) -/

/-- In-memory page object: the byte buffer plus the cached bookkeeping fields
`_record_pointers_end` and `_records_start` (the iterator index is modelled
separately, by `pageRows`). -/
structure HeapPage where
  schema : Schema
  buff : List Nat
  recordPointersEnd : Nat
  recordsStart : Nat

/-- Python `HeapPage.__init__` with `init_buff=None`: a zeroed buffer,
`_record_pointers_end = 2`, `_records_start = page_size`. -/
def HeapPage.new (schema : Schema) (pageSize : Nat) : HeapPage :=
  ⟨schema, List.replicate pageSize 0, 2, pageSize⟩

/-- The `num_records` property: `struct.unpack("<H", buff[:2])[0]`. -/
def HeapPage.numRecords (p : HeapPage) : Nat := readU16 p.buff 0

/-- Python `_get_record_start_idx(record_num)`:
`struct.unpack("<H", buff[2+2*record_num : 4+2*record_num])[0]`.
The argument is an `Int` because `__init__` passes `num_records - 1`, which is
`-1` on an empty page; the slice indices `2+2*(-1) = 0` and `4+2*(-1) = 2`
are then still non-negative, so Python reads `buff[0:2]` — the `num_records`
header word.  (`Int.toNat` is exact here: the method is only reached with
`record_num ≥ -1`.) -/
def getRecordStartIdx (b : List Nat) (recordNum : Int) : Nat :=
  readU16 b (2 + 2 * recordNum).toNat

/-- Python `HeapPage.__init__` with a buffer: adopts the bytes, derives
`_record_pointers_end = 2 + 2*num_records` and
`_records_start = _get_record_start_idx(num_records - 1)`. -/
def HeapPage.fromBuffer (schema : Schema) (b : List Nat) : HeapPage :=
  ⟨schema, b, 2 + 2 * readU16 b 0, getRecordStartIdx b ((readU16 b 0 : Int) - 1)⟩

/-- Python `_free_bytes`: `page_size - 2 - 2*num_records - (page_size - records_start)`,
computed in `Int` because Python integer arithmetic can go negative here
(it does, on a page adopted from an empty buffer). -/
def HeapPage.freeBytes (p : HeapPage) : Int :=
  (p.buff.length : Int) - 2 - 2 * (p.numRecords : Int)
    - ((p.buff.length : Int) - (p.recordsStart : Int))

/-- Python `_can_fit_record`: `2 + len(record_bin) <= _free_bytes()`. -/
def HeapPage.canFitRecord (p : HeapPage) (bin : List Nat) : Bool :=
  decide ((2 + (bin.length : Int)) ≤ p.freeBytes)

/-- Python `insert_record`: marshal the row (schema-zipped), check capacity, then
write the record bytes, the new slot, and the incremented header.  Failure
returns the error with the page untouched, mirroring that the source mutates
the buffer only after the capacity check passes. -/
def HeapPage.insertRecord (p : HeapPage) (record : List Value) :
    Except DbError HeapPage :=
  match marshalRecord p.schema record with
  | none => .error .codec
  | some bin =>
    if p.canFitRecord bin then
      let rs := p.recordsStart - bin.length
      let rpe := p.recordPointersEnd + 2
      let b1 := writeBytes p.buff rs bin
      let b2 := writeBytes b1 (rpe - 2) (u16Bytes rs)
      let b3 := writeBytes b2 0 (u16Bytes (readU16 b2 0 + 1))
      .ok ⟨p.schema, b3, rpe, rs⟩
    else .error .insufficientSpace

/-- Python `HeapPage.marshall`: the buffer bytes. -/
def HeapPage.marshall (p : HeapPage) : List Nat := p.buff

/-- One step of `HeapPage.__next__` at iterator index `i`: slice
`buff[record_start : record_end]` (record 0 ends at the page end, record `i`
at slot `i-1`) and decode it against the schema. -/
def decodeRecordAt (schema : Schema) (b : List Nat) (i : Nat) : Except DbError Row :=
  match unmarshalRecord schema
      (slice b (getRecordStartIdx b (i : Int))
        (if i = 0 then b.length else getRecordStartIdx b ((i : Int) - 1))) with
  | none => .error .codec
  | some (vs, _) => .ok vs

/-- Draining a fresh page iterator: records `0 .. num_records-1` in order,
stopping at the first decode error.  Iteration reads only the buffer, never
the cached bookkeeping fields. -/
def pageRows (schema : Schema) (b : List Nat) : Except DbError (List Row) :=
  (List.range (readU16 b 0)).mapM (decodeRecordAt schema b)

/-! ## Execution nodes (`toydbms/execution.py`) -/

/-- Constant `DEFAULT_PAGE_SIZE` from `execution.py`. -/
def defaultPageSize : Nat := 4096

/-- Draining `FileScanNode`, fuelled for structural recursion: read
`page_size` bytes at a time; a zero-length read ends the scan, a partial
read is `"heapfile size isn't multiple of page size"`, and each full page
contributes its decoded rows in order.  Each recursion consumes `page_size
≥ 1` bytes, so fuel `≥ file.length` (as `scanFile` passes) never runs out;
the out-of-fuel branch is unreachable there. -/
def scanFileAux (schema : Schema) (ps : Nat) :
    Nat → List Nat → Except DbError (List Row)
  | fuel, file =>
    let chunk := file.take ps
    if chunk.length = 0 then .ok []
    else if chunk.length ≠ ps then .error .corruptedStorage
    else
      match pageRows schema chunk with
      | .error e => .error e
      | .ok rows =>
        match fuel with
        | 0 => .error .corruptedStorage
        | fuel' + 1 =>
          match scanFileAux schema ps fuel' (file.drop ps) with
          | .error e => .error e
          | .ok rest => .ok (rows ++ rest)

/-- Draining `FileScanNode` over a whole file image. -/
def scanFile (schema : Schema) (ps : Nat) (file : List Nat) :
    Except DbError (List Row) :=
  scanFileAux schema ps file.length file

/-- One child record inside `InsertNode.__next__`'s loop: try the current
page; on `InsufficientSpaceError`, flush the page image and retry on a fresh
empty page (any other error propagates, as Python catches only
`InsufficientSpaceError`).  State: written page images, current page,
`_num_inserted`. -/
def insertStep (schema : Schema) (ps : Nat)
    (st : List (List Nat) × HeapPage × Nat) (r : Row) :
    Except DbError (List (List Nat) × HeapPage × Nat) :=
  let (w, p, n) := st
  match p.insertRecord r with
  | .ok p' => .ok (w, p', n + 1)
  | .error .insufficientSpace =>
    match (HeapPage.new schema ps).insertRecord r with
    | .ok p' => .ok (w ++ [p.marshall], p', n + 1)
    | .error e => .error e
  | .error e => .error e

/-- The body of `InsertNode.__next__`: load the last page of the file
(`seek(-page_size, SEEK_END); read(page_size)`), process every child row,
then flush the final page iff it holds at least one record.  The pages are
written back sequentially starting at the last page's offset, which
`writeBytes` captures; returns the new file image and the insert count. -/
def insertBatch (schema : Schema) (ps : Nat) (file : List Nat)
    (rows : List Row) : Except DbError (List Nat × Nat) :=
  match rows.foldlM (insertStep schema ps)
      ([], HeapPage.fromBuffer schema (file.drop (file.length - ps)), 0) with
  | .error e => .error e
  | .ok (w, p, n) =>
    .ok (writeBytes file (file.length - ps)
      ((if 0 < p.numRecords then w ++ [p.marshall] else w).flatten), n)

/-- One pull of `InsertNode`: `if self._num_inserted > 0: raise StopIteration`,
otherwise run the batch and yield the one-column count row.  The result
carries the updated file image and `_num_inserted`. -/
def insertNodeNext (schema : Schema) (ps : Nat) (childRows : List Row)
    (file : List Nat) (numInserted : Nat) :
    Except DbError (Option (Row × (List Nat × Nat))) :=
  if 0 < numInserted then .ok none
  else
    match insertBatch schema ps file childRows with
    | .error e => .error e
    | .ok (f, n) => .ok (some ([Value.uint n], (f, n)))

/-- One pull of `ValuesNode`: index into the value list (`IndexError` ends
the stream), then build the record by zipping the schema with the string row
— rows of the wrong arity are silently truncated by `zip`, no arity check
exists.  A failed `from_str` parse propagates as an error. -/
def valuesNodeNext (schema : Schema) (values : List (List String)) (idx : Nat) :
    Except DbError (Option (Row × Nat)) :=
  match values[idx]? with
  | none => .ok none
  | some strs =>
    match (schema.zip strs).mapM (fun p => fromStr p.1.2 p.2) with
    | none => .error .codec
    | some record => .ok (some (record, idx + 1))

/-! ## Abstract query layer (`toydbms/query.py`) and planner -/

/-- The `Filter` dataclass: argument column names plus an arbitrary predicate closure. -/
structure Filter where
  columnArgs : List String
  predicate : List Value → Bool

/-- The `SortColumn` dataclass. -/
structure SortColumn where
  column : String
  asc : Bool := true
deriving DecidableEq, Repr

/-- The `Table` descriptor: the schema (the file path is modelled by passing the file's
bytes alongside). -/
structure Table where
  schema : Schema

/-- The `Table.columns` property. -/
def Table.columns (t : Table) : List String := t.schema.map Prod.fst

/-- Python `list.index` for column-name resolution; `none` is the `ValueError`
raised on a missing column. -/
def colIndex (cols : List String) (name : String) : Option Nat :=
  cols.findIdx? (fun c => c == name)

/-- Python `row[col_idx]` as used by sort keys, selection args and projection.  The
index is always in range for rows of schema arity; `getD` totalises. -/
def keyAt (r : Row) (i : Nat) : Value := r.getD i (Value.uint 0)

/-- The comparison realised by `rows.sort(key=lambda r: r[i],
reverse=sort_column.asc)`: a stable sort by the key, descending when
`asc` is true (the iterator later pops from the tail, re-reversing). -/
def sortStepLe (asc : Bool) (i : Nat) (r s : Row) : Bool :=
  if asc then Value.le (keyAt s i) (keyAt r i) else Value.le (keyAt r i) (keyAt s i)

/-- Python `SortNode._init_sorted_rows`: one stable sort per sort column, applied in
reverse specification order (`for sort_column in reversed(self.sort_columns)`),
resolving each column name as it goes.  Python's `list.sort` is stable, which
`List.mergeSort` models.  The result is the tail-popped (i.e. reversed)
internal list `reverse_sorted_rows`. -/
def sortRows (cols : List String) (scs : List SortColumn) (rows : List Row) :
    Except DbError (List Row) :=
  match scs with
  | [] => .ok rows
  | sc :: rest =>
    match sortRows cols rest rows with
    | .error e => .error e
    | .ok m =>
      match colIndex cols sc.column with
      | none => .error .unknownColumn
      | some i => .ok (m.mergeSort (sortStepLe sc.asc i))

/-- Draining `SortNode`: rows are popped from the tail of
`reverse_sorted_rows`, so the output is the reversal of `sortRows`. -/
def sortNodeRows (cols : List String) (scs : List SortColumn)
    (rows : List Row) : Except DbError (List Row) :=
  match sortRows cols scs rows with
  | .error e => .error e
  | .ok l => .ok l.reverse

/-- Draining `SelectionNode`: resolve the filter's argument columns once,
then keep the rows on which the predicate holds. -/
def selectionRows (cols : List String) (f : Filter) (rows : List Row) :
    Except DbError (List Row) :=
  match f.columnArgs.mapM (colIndex cols) with
  | none => .error .unknownColumn
  | some idxs => .ok (rows.filter (fun r => f.predicate (idxs.map (keyAt r))))

/-- Draining `ProjectionNode`: resolve the projection columns once, then map
each row to the projected values. -/
def projectionRows (cols : List String) (pcols : List String) (rows : List Row) :
    Except DbError (List Row) :=
  match pcols.mapM (colIndex cols) with
  | none => .error .unknownColumn
  | some idxs => .ok (rows.map (fun r => idxs.map (keyAt r)))

/-- The `AbstractQuery` dataclass.  The limit is an `Int`, like a Python `int`. -/
structure AbstractQuery where
  fromClause : Table
  selectClause : Option (List String) := none
  whereClause : Option Filter := none
  orderClause : Option (List SortColumn) := none
  limitClause : Option Int := none

/-- Python truthiness of an optional list (`if s.order_clause:` /
`if s.select_clause:`): `None` and the empty list are falsy. -/
def truthyOptList {α : Type} : Option (List α) → Bool
  | none => false
  | some l => !l.isEmpty

/-- Python truthiness of an optional int (`if s.limit_clause:`): `None`
and `0` are falsy. -/
def truthyOptInt : Option Int → Bool
  | none => false
  | some n => n != 0

/-- The stream that reaches the limit stage of
`_get_abstract_query_entry_node`: `FileScan` (at the default page size, as
the planner passes none), then `Selection` if a where-clause is present
(`is not None`), then `Sort` if the order-clause is truthy. -/
def queryStreamRows (q : AbstractQuery) (file : List Nat) :
    Except DbError (List Row) :=
  match scanFile q.fromClause.schema defaultPageSize file with
  | .error e => .error e
  | .ok rows =>
    match (match q.whereClause with
           | none => Except.ok rows
           | some f => selectionRows q.fromClause.columns f rows) with
    | .error e => .error e
    | .ok rows2 =>
      if truthyOptList q.orderClause then
        sortNodeRows q.fromClause.columns (q.orderClause.getD []) rows2
      else .ok rows2

/-- Draining the full plan of a `Query` statement, as `execute_dml` does:
after the stream above, `Limit` if the limit-clause is truthy (`LimitNode`
yields `min(limit, ·)` rows, and a negative budget yields none), then
`Projection` if the select-clause is truthy. -/
def executeQuery (q : AbstractQuery) (file : List Nat) :
    Except DbError (List Row) :=
  match queryStreamRows q file with
  | .error e => .error e
  | .ok s =>
    let limited := if truthyOptInt q.limitClause
                   then s.take (q.limitClause.getD 0).toNat else s
    if truthyOptList q.selectClause then
      projectionRows q.fromClause.columns (q.selectClause.getD []) limited
    else .ok limited

/-! ## Representation predicate for built pages

`PageRep ps p recs` says the page object `p` is a well-formed slotted page of
size `ps` holding the record images `recs` (in insertion order, record 0 at
the page tail), with the cached bookkeeping consistent with the buffer.  It
holds for a freshly allocated page (with `recs = []`) and is preserved by
successful `insert_record`s; it does *not* hold for a page adopted from an
empty buffer, whose `records_start` is broken (see the C2 analysis). -/

/-- Total size of a list of record images. -/
def sumLens (recs : List (List Nat)) : Nat := (recs.map List.length).sum

structure PageRep (ps : Nat) (p : HeapPage) (recs : List (List Nat)) : Prop where
  hps : ps < 65536
  hlen : p.buff.length = ps
  hn : readU16 p.buff 0 = recs.length
  hrpe : p.recordPointersEnd = 2 + 2 * recs.length
  hrs : p.recordsStart = ps - sumLens recs
  hsep : 2 + 2 * recs.length + sumLens recs ≤ ps
  hslot : ∀ i, i < recs.length →
    readU16 p.buff (2 + 2 * i) = ps - sumLens (recs.take (i + 1))
  hrec : ∀ i, (h : i < recs.length) →
    slice p.buff (ps - sumLens (recs.take (i + 1))) (ps - sumLens (recs.take i))
      = recs.get ⟨i, h⟩

/-- Predicate `recsDecode schema recs rows`: each stored record image decodes exactly
to the corresponding row (with no bytes left over). -/
def recsDecode (schema : Schema) : List (List Nat) → List Row → Prop :=
  List.Forall₂ (fun bin r => unmarshalRecord schema bin = some (r, []))

/-- A row that round-trips through the codecs and fits (with its 2-byte
slot) in the free space of a fresh page of size `ps`. -/
def rowFitsB (schema : Schema) (ps : Nat) (r : Row) : Bool :=
  match marshalRecord schema r with
  | none => false
  | some bin =>
    decide (unmarshalRecord schema bin = some (r, [])) &&
      decide ((2 + (bin.length : Int)) ≤ (ps : Int) - 2)

/-- Propositional form of `rowFitsB` (decidable, for concrete witnesses). -/
def RowFits (schema : Schema) (ps : Nat) (r : Row) : Prop :=
  rowFitsB schema ps r = true

instance (schema : Schema) (ps : Nat) (r : Row) : Decidable (RowFits schema ps r) :=
  inferInstanceAs (Decidable (rowFitsB schema ps r = true))

/-! ## Lexicographic order induced by a sort-column list -/

/-- Two rows are tied at key index `i` when each compares `≤` the other —
what a stable sort pass on that key treats as equal. -/
def tiedAt (i : Nat) (r s : Row) : Bool :=
  Value.le (keyAt r i) (keyAt s i) && Value.le (keyAt s i) (keyAt r i)

/-- Lexicographic comparison over the sort columns: the first non-tied
column decides, ascending or descending per its `asc` flag.  (A column that
fails to resolve is skipped; `sortRows` errors before this matters.) -/
def lexLe (cols : List String) : List SortColumn → Row → Row → Bool
  | [], _, _ => true
  | sc :: rest, r, s =>
    match colIndex cols sc.column with
    | none => lexLe cols rest r s
    | some i =>
      if tiedAt i r s then lexLe cols rest r s
      else sortStepLe sc.asc i s r

/-- Rows tied on every sort column. -/
def tiedAll (cols : List String) (scs : List SortColumn) (r s : Row) : Bool :=
  scs.all (fun sc =>
    match colIndex cols sc.column with
    | none => true
    | some i => tiedAt i r s)

/-! ## Concrete example tables used by witnesses and counterexamples -/

/-- A one-column schema like the `movies` table's key column. -/
def mSchema : Schema := [("movieId", ColType.uint32)]

/-- A two-column schema: a `UInt32` key and a `Text` payload. -/
def kvSchema : Schema := [("k", ColType.uint32), ("v", ColType.text)]

/-- A default-size page image holding the single row `[7]` of `mSchema`,
as `insert_record` builds it on a fresh page. -/
def oneRowFile : List Nat :=
  match (HeapPage.new mSchema defaultPageSize).insertRecord [.uint 7] with
  | .ok p => p.marshall
  | .error _ => []

/-! ## Helper lemmas -/

theorem getD_replicate_zero (n i : Nat) : (List.replicate n (0 : Nat)).getD i 0 = 0 := by
  simp only [List.getD_eq_getElem?_getD, List.getElem?_replicate]
  split <;> rfl

theorem readU16_replicate_zero (n i : Nat) : readU16 (List.replicate n 0) i = 0 := by
  simp [readU16, getD_replicate_zero]

theorem writeBytes_nil (b : List Nat) (i : Nat) : writeBytes b i [] = b := by
  simp [writeBytes]

theorem writeBytes_drop_self (b : List Nat) (i : Nat) (h : i ≤ b.length) :
    writeBytes b i (b.drop i) = b := by
  unfold writeBytes
  rw [List.length_drop, show i + (b.length - i) = b.length by omega,
    List.drop_length, List.append_nil, List.take_append_drop]

theorem length_mapM_option {α β : Type} (f : α → Option β) :
    ∀ (l : List α) (l' : List β), l.mapM f = some l' → l'.length = l.length := by
  intro l
  induction l with
  | nil =>
    intro l' h
    simp only [List.mapM_nil, pure, Option.some.injEq] at h
    subst h; rfl
  | cons a t ih =>
    intro l' h
    simp only [List.mapM_cons, Option.pure_def, Option.bind_eq_bind,
      Option.bind_eq_some, Option.some.injEq] at h
    obtain ⟨b, hfa, bs, ht, rfl⟩ := h
    simp [ih bs ht]

/-! ## Claim C2 — `from_buffer` on an empty page image -/

/-- Claim C2 (code bug): the claim says a `HeapPage` adopted via
`from_buffer` from the marshalled bytes of an empty page has
`records_start = page_size`.  In the source, `__init__` computes
`_get_record_start_idx(num_records - 1)` with `num_records = 0`, whose slice
indices `2+2*(-1)=0`, `4+2*(-1)=2` read the `num_records` header itself, so
`records_start` is `0`, not `page_size`, and `free_bytes()` is `-2` instead
of the fresh page's `page_size - 2`. -/
theorem claim2_from_buffer_empty_records_start (schema : Schema) (ps : Nat)
    (hps : 1 ≤ ps) :
    (HeapPage.fromBuffer schema ((HeapPage.new schema ps).marshall)).recordsStart = 0 ∧
    (HeapPage.fromBuffer schema ((HeapPage.new schema ps).marshall)).recordsStart ≠ ps ∧
    (HeapPage.fromBuffer schema ((HeapPage.new schema ps).marshall)).freeBytes = -2 ∧
    (HeapPage.new schema ps).freeBytes = (ps : Int) - 2 := by
  have hred : (2 + 2 * ((0 : Int) - 1)).toNat = 0 := by decide
  have h0 : readU16 ((HeapPage.new schema ps).marshall) 0 = 0 :=
    readU16_replicate_zero ps 0
  have hrs : (HeapPage.fromBuffer schema ((HeapPage.new schema ps).marshall)).recordsStart = 0 := by
    show getRecordStartIdx ((HeapPage.new schema ps).marshall)
      ((readU16 ((HeapPage.new schema ps).marshall) 0 : Int) - 1) = 0
    rw [h0, Nat.cast_zero]
    unfold getRecordStartIdx
    rw [hred]
    exact h0
  refine ⟨hrs, by omega, ?_, ?_⟩
  · unfold HeapPage.freeBytes HeapPage.numRecords
    rw [hrs]
    show ((List.replicate ps 0).length : Int) - 2
      - 2 * (readU16 (List.replicate ps 0) 0 : Int)
      - (((List.replicate ps 0).length : Int) - ((0 : Nat) : Int)) = -2
    rw [readU16_replicate_zero, List.length_replicate]
    push_cast
    ring
  · unfold HeapPage.freeBytes HeapPage.numRecords HeapPage.new
    simp [readU16_replicate_zero]

/-- Witness for C2's theorem at `mSchema`, page size 4096. -/
theorem claim2_from_buffer_empty_records_start_witness :
    1 ≤ 4096 ∧
    (HeapPage.fromBuffer mSchema ((HeapPage.new mSchema 4096).marshall)).recordsStart = 0 ∧
    (HeapPage.fromBuffer mSchema ((HeapPage.new mSchema 4096).marshall)).recordsStart ≠ 4096 ∧
    (HeapPage.fromBuffer mSchema ((HeapPage.new mSchema 4096).marshall)).freeBytes = -2 ∧
    (HeapPage.new mSchema 4096).freeBytes = (4096 : Int) - 2 :=
  ⟨by decide, claim2_from_buffer_empty_records_start mSchema 4096 (by decide)⟩

/-! ## Claim C1 — `InsertNode` pulls after an empty batch -/

/-- Claim C1 (code bug): with an exhausted (zero-row) child, a pull of
`InsertNode` at `_num_inserted = 0` leaves the file unchanged and yields the
row `[0]` — and leaves `_num_inserted = 0`, so the guard
`if self._num_inserted > 0: raise StopIteration` never fires: the *next*
pull is this same call again and yields `[0]` again, forever.  Draining the
node (as `execute_dml` does) therefore never terminates when the child
yields zero rows, contradicting the claim that subsequent pulls yield end. -/
theorem claim1_insert_node_zero_rows_repull (schema : Schema) (ps : Nat)
    (file : List Nat) (hps : ps ≤ file.length) :
    insertNodeNext schema ps [] file 0 = .ok (some ([Value.uint 0], (file, 0))) := by
  have hbatch : insertBatch schema ps file [] = .ok (file, 0) := by
    unfold insertBatch
    simp only [List.foldlM_nil, pure, Except.pure]
    by_cases h : 0 < (HeapPage.fromBuffer schema (file.drop (file.length - ps))).numRecords
    · simp only [h, if_pos, List.nil_append, List.flatten_cons, List.flatten_nil,
        List.append_nil]
      have : (HeapPage.fromBuffer schema (file.drop (file.length - ps))).marshall
          = file.drop (file.length - ps) := rfl
      rw [this, writeBytes_drop_self file (file.length - ps) (by omega)]
    · simp only [h, if_neg, List.flatten_nil, not_false_eq_true]
      rw [writeBytes_nil]
  unfold insertNodeNext
  rw [hbatch]
  rfl

/-- Witness for C1's theorem: a 16-byte single-page file. -/
theorem claim1_insert_node_zero_rows_repull_witness :
    16 ≤ (List.replicate 16 (0 : Nat)).length ∧
    insertNodeNext mSchema 16 [] (List.replicate 16 0) 0
      = .ok (some ([Value.uint 0], (List.replicate 16 0, 0))) :=
  ⟨by decide,
    claim1_insert_node_zero_rows_repull mSchema 16 (List.replicate 16 0) (by decide)⟩

/-! ## Claim C7 — `insert_record` capacity law -/

/-- Claim C7 (confirmed): for a row whose marshalled record is `bin`,
`insert_record` succeeds iff `len(bin) + 2 ≤ free_bytes()`, and otherwise
raises `InsufficientSpaceError`.  In this pure embedding a failed insert
returns only the error, reflecting that the source method mutates the buffer
and bookkeeping exclusively after the capacity check has passed, so a failed
insert leaves the page exactly as it was. -/
theorem claim7_insert_record_capacity (p : HeapPage) (r : Row) (bin : List Nat)
    (hm : marshalRecord p.schema r = some bin) :
    ((∃ p', p.insertRecord r = .ok p') ↔ (2 + (bin.length : Int)) ≤ p.freeBytes) ∧
    (¬ (2 + (bin.length : Int)) ≤ p.freeBytes →
      p.insertRecord r = .error .insufficientSpace) := by
  unfold HeapPage.insertRecord
  rw [hm]
  by_cases hP : (2 + (bin.length : Int)) ≤ p.freeBytes
  · have hc : p.canFitRecord bin = true := by
      simp [HeapPage.canFitRecord, hP]
    simp [hc, hP]
  · have hc : p.canFitRecord bin = false := by
      simp [HeapPage.canFitRecord, hP]
    simp [hc, hP]

/-- Witness for C7's theorem: a fresh 16-byte page of `mSchema` and the row
`[5]`, whose record is the four bytes `[5,0,0,0]`. -/
theorem claim7_insert_record_capacity_witness :
    marshalRecord (HeapPage.new mSchema 16).schema [Value.uint 5]
        = some [5, 0, 0, 0] ∧
    (((∃ p', (HeapPage.new mSchema 16).insertRecord [Value.uint 5] = .ok p') ↔
        (2 + (([5, 0, 0, 0] : List Nat).length : Int))
          ≤ (HeapPage.new mSchema 16).freeBytes) ∧
      (¬ (2 + (([5, 0, 0, 0] : List Nat).length : Int))
          ≤ (HeapPage.new mSchema 16).freeBytes →
        (HeapPage.new mSchema 16).insertRecord [Value.uint 5]
          = .error .insufficientSpace)) :=
  ⟨by decide,
    claim7_insert_record_capacity (HeapPage.new mSchema 16) [Value.uint 5]
      [5, 0, 0, 0] (by decide)⟩

/-! ## Claim C6 — `ValuesNode` and row arity -/

/-- Counterexample to claim C6: pulling the 1-string row `["1"]` against the
two-column schema `kvSchema` raises nothing at all — no `SchemaMismatch`
error exists anywhere in the source — and yields the 1-value row `[1]`,
whose arity differs from the schema's. -/
theorem claim6_values_short_row_no_error :
    valuesNodeNext kvSchema [["1"]] 0 = .ok (some ([Value.uint 1], 1)) ∧
    ([Value.uint 1] : Row).length ≠ kvSchema.length := by
  constructor
  · rfl
  · decide

/-- Claim C6 as amended: `ValuesNode.__next__` performs no arity check; the
row is combined with the schema positionally by `zip`, so a pull yields a
row of length `min(len(schema), len(row))` (extra strings are dropped, a
short row yields a short record). -/
theorem claim6_values_node_zip_truncates (schema : Schema)
    (values : List (List String)) (idx : Nat) (strs : List String) (record : Row)
    (hv : values[idx]? = some strs)
    (hm : (schema.zip strs).mapM (fun p => fromStr p.1.2 p.2) = some record) :
    valuesNodeNext schema values idx = .ok (some (record, idx + 1)) ∧
    record.length = min schema.length strs.length := by
  constructor
  · unfold valuesNodeNext
    rw [hv]
    simp only [hm]
  · have h := length_mapM_option _ _ _ hm
    rw [List.length_zip] at h
    exact h

/-- Witness for C6's amended theorem: a three-string row against the
two-column `kvSchema` yields a two-value row. -/
theorem claim6_values_node_zip_truncates_witness :
    ([["1", "hi", "zz"]] : List (List String))[0]? = some ["1", "hi", "zz"] ∧
    (kvSchema.zip ["1", "hi", "zz"]).mapM (fun p => fromStr p.1.2 p.2)
      = some [Value.uint 1, Value.text [104, 105]] ∧
    (valuesNodeNext kvSchema [["1", "hi", "zz"]] 0
        = .ok (some ([Value.uint 1, Value.text [104, 105]], 1)) ∧
      ([Value.uint 1, Value.text [104, 105]] : Row).length
        = min kvSchema.length (["1", "hi", "zz"] : List String).length) :=
  ⟨by rfl, by rfl,
    claim6_values_node_zip_truncates kvSchema [["1", "hi", "zz"]] 0
      ["1", "hi", "zz"] [Value.uint 1, Value.text [104, 105]] (by rfl) (by rfl)⟩

/-! ## Claim C3 — filling one page of capacity plus one row -/

/-- Claim C3 (code bug): a fresh 16-byte-page table of `mSchema` holds two
4-byte records per page (`2 + 2·2 + 2·4 = 14 ≤ 16`, a third slot+record
needs 6 more bytes).  Inserting capacity-plus-one rows (three) must, per the
claim, give a two-page file; the code produces a *three*-page file (48
bytes), because the loaded empty first page reports `free_bytes() = -2`
(claim C2's bug) and is flushed back still empty, with all rows landing on
fresh pages.  The scan half of the claim does hold: a full scan returns all
three rows in insertion order. -/
theorem claim3_insert_capacity_plus_one_three_pages :
    ((insertBatch mSchema 16 (List.replicate 16 0)
        [[.uint 1], [.uint 2], [.uint 3]]).map
      (fun x => (x.1.length, x.2, scanFile mSchema 16 x.1)))
      = .ok (3 * 16, 3, .ok [[.uint 1], [.uint 2], [.uint 3]]) ∧
    (((HeapPage.new mSchema 16).insertRecord [.uint 1]).bind
        (fun p => p.insertRecord [.uint 2])).map
      (fun p => p.canFitRecord (u32Bytes 3)) = .ok false := by
  constructor
  · rfl
  · rfl

/-! ## Claim C5 — the limit bound -/

/-- Claim C5 as amended: for a limit clause `n ≥ 1` the executed query
returns exactly `min n |S|` rows, `S` being the stream reaching the limit
stage.  (For `n = 0` the claim fails: the planner's truthiness test
`if s.limit_clause:` treats `0` like `None` and builds no `LimitNode` at
all, so *every* row of `S` is returned — see the counterexample.) -/
theorem claim5_limit_bound_positive (q : AbstractQuery) (file : List Nat)
    (n : Int) (s res : List Row)
    (hl : q.limitClause = some n) (hn : 1 ≤ n)
    (hs : queryStreamRows q file = .ok s)
    (hr : executeQuery q file = .ok res) :
    res.length = min n.toNat s.length := by
  have ht : truthyOptInt q.limitClause = true := by
    rw [hl]
    simp only [truthyOptInt, bne_iff_ne, ne_eq, decide_eq_true_eq]
    omega
  unfold executeQuery at hr
  rw [hs, ht, hl] at hr
  simp only [if_true, Option.getD_some] at hr
  by_cases hsel : truthyOptList q.selectClause = true
  · rw [if_pos hsel] at hr
    unfold projectionRows at hr
    cases hres : (q.selectClause.getD []).mapM (colIndex q.fromClause.columns) with
    | none => rw [hres] at hr; exact absurd hr (by simp)
    | some idxs =>
      rw [hres] at hr
      simp only [Except.ok.injEq] at hr
      subst hr
      simp [List.length_take]
  · rw [if_neg hsel] at hr
    simp only [Except.ok.injEq] at hr
    subst hr
    simp [List.length_take]

/-- Witness for C5's amended theorem: limit 1 over an empty heap file. -/
theorem claim5_limit_bound_positive_witness :
    (⟨⟨mSchema⟩, none, none, none, some 1⟩ : AbstractQuery).limitClause = some 1 ∧
    (1 : Int) ≤ 1 ∧
    queryStreamRows ⟨⟨mSchema⟩, none, none, none, some 1⟩ [] = .ok [] ∧
    executeQuery ⟨⟨mSchema⟩, none, none, none, some 1⟩ [] = .ok [] ∧
    ([] : List Row).length = min (1 : Int).toNat ([] : List Row).length :=
  ⟨rfl, by decide, by rfl, by rfl,
    claim5_limit_bound_positive ⟨⟨mSchema⟩, none, none, none, some 1⟩ [] 1 [] []
      rfl (by decide) (by rfl) (by rfl)⟩

/-! ## Order-theoretic facts about the sort comparisons -/

theorem bytesLe_refl (a : List Nat) : bytesLe a a = true := by
  induction a with
  | nil => rfl
  | cons x xs ih => simp [bytesLe, Nat.lt_irrefl, ih]

theorem bytesLe_total (a : List Nat) : ∀ b, (bytesLe a b || bytesLe b a) = true := by
  induction a with
  | nil => intro b; simp [bytesLe]
  | cons x xs ih =>
    intro b
    cases b with
    | nil => simp [bytesLe]
    | cons y ys =>
      simp only [bytesLe]
      rcases Nat.lt_trichotomy x y with h | h | h
      · simp [h, Nat.lt_asymm h]
      · subst h
        simp [Nat.lt_irrefl, ih ys]
      · simp [h, Nat.lt_asymm h]

theorem bytesLe_trans (a : List Nat) :
    ∀ b c, bytesLe a b = true → bytesLe b c = true → bytesLe a c = true := by
  induction a with
  | nil => intro b c _ _; rfl
  | cons x xs ih =>
    intro b c hab hbc
    cases b with
    | nil => simp [bytesLe] at hab
    | cons y ys =>
      cases c with
      | nil => simp [bytesLe] at hbc
      | cons z zs =>
        simp only [bytesLe] at hab hbc ⊢
        rcases Nat.lt_trichotomy x y with hxy | hxy | hxy
        · rcases Nat.lt_trichotomy y z with hyz | hyz | hyz
          · rw [if_pos (Nat.lt_trans hxy hyz)]
          · subst hyz; rw [if_pos hxy]
          · rw [if_neg (by omega), if_pos hyz] at hbc
            exact absurd hbc (by simp)
        · subst hxy
          rw [if_neg (Nat.lt_irrefl x), if_neg (Nat.lt_irrefl x)] at hab
          rcases Nat.lt_trichotomy x z with hxz | hxz | hxz
          · rw [if_pos hxz]
          · subst hxz
            rw [if_neg (Nat.lt_irrefl x), if_neg (Nat.lt_irrefl x)] at hbc ⊢
            exact ih ys zs hab hbc
          · rw [if_neg (by omega), if_pos hxz] at hbc
            exact absurd hbc (by simp)
        · rw [if_neg (by omega), if_pos hxy] at hab
          exact absurd hab (by simp)

theorem Value.le_refl (v : Value) : Value.le v v = true := by
  cases v with
  | uint n => simp [Value.le]
  | text bs => simp [Value.le, bytesLe_refl]

theorem Value.le_total (a b : Value) : (Value.le a b || Value.le b a) = true := by
  cases a <;> cases b <;> simp [Value.le, Nat.le_total, bytesLe_total]

theorem Value.le_trans (a b c : Value) :
    Value.le a b = true → Value.le b c = true → Value.le a c = true := by
  cases a <;> cases b <;> cases c <;>
    simp [Value.le] <;>
    first
    | omega
    | exact bytesLe_trans _ _ _

theorem Value.le_total_or (a b : Value) :
    Value.le a b = true ∨ Value.le b a = true :=
  Bool.or_eq_true_iff.mp (Value.le_total a b)

theorem sortStepLe_total (asc : Bool) (i : Nat) (r s : Row) :
    (sortStepLe asc i r s || sortStepLe asc i s r) = true := by
  cases asc <;> simp [sortStepLe]
  · exact Value.le_total_or _ _
  · exact (Value.le_total_or _ _).symm

theorem sortStepLe_trans (asc : Bool) (i : Nat) (a b c : Row) :
    sortStepLe asc i a b = true → sortStepLe asc i b c = true →
    sortStepLe asc i a c = true := by
  unfold sortStepLe
  cases asc
  · simp only [Bool.false_eq_true, if_false]
    exact fun h1 h2 => Value.le_trans _ _ _ h1 h2
  · simp only [if_true]
    exact fun h1 h2 => Value.le_trans _ _ _ h2 h1

/-- Evaluation of `mergeSort` on a two-element list (the definition itself
recurses by well-founded recursion, so concrete instances are computed
through this equation). -/
theorem mergeSort_pair {α : Type} (le : α → α → Bool) (a b : α) :
    [a, b].mergeSort le = if le a b then [a, b] else [b, a] := by
  rw [List.mergeSort]
  simp [List.splitInTwo, List.splitAt_eq, List.mergeSort, List.merge]

/-- Converse stability: a tied pair that is a sublist of `mergeSort le l`
was already a sublist of `l` in that order (elements tied with `r` keep
their relative order through a stable sort, so the filtered tied class is
unchanged). -/
theorem tied_pair_sublist_of_mergeSort {α : Type} (le : α → α → Bool)
    (htrans : ∀ a b c, le a b → le b c → le a c)
    (htotal : ∀ a b, (le a b || le b a) = true)
    {r s : α} {l : List α}
    (hrs : le r s = true) (hsr : le s r = true)
    (h : List.Sublist [r, s] (l.mergeSort le)) : List.Sublist [r, s] l := by
  have htotal' : ∀ a b : α, le a b || le b a := fun a b => htotal a b
  have hlerr : le r r = true := by
    have := htotal r r
    rcases Bool.or_eq_true_iff.mp this with h' | h' <;> exact h'
  have hmem : ∀ a ∈ l.filter (fun x => le r x && le x r),
      le r a = true ∧ le a r = true := by
    intro a ha
    have := (List.mem_filter.mp ha).2
    exact ⟨(Bool.and_eq_true_iff.mp this).1, (Bool.and_eq_true_iff.mp this).2⟩
  have hcpair : (l.filter (fun x => le r x && le x r)).Pairwise (le · ·) := by
    apply List.pairwise_of_forall_mem_list
    intro a ha b hb
    exact htrans a r b (hmem a ha).2 (hmem b hb).1
  have h1 : List.Sublist (l.filter (fun x => le r x && le x r)) (l.mergeSort le) :=
    List.sublist_mergeSort htrans htotal' hcpair (List.filter_sublist l)
  have hceq : (l.filter (fun x => le r x && le x r)).filter
      (fun x => le r x && le x r) = l.filter (fun x => le r x && le x r) :=
    List.filter_eq_self.mpr (fun a ha => (List.mem_filter.mp ha).2)
  have h2 : List.Sublist (l.filter (fun x => le r x && le x r))
      ((l.mergeSort le).filter (fun x => le r x && le x r)) := by
    have := h1.filter (fun x => le r x && le x r)
    rwa [hceq] at this
  have h3 : List.Perm ((l.mergeSort le).filter (fun x => le r x && le x r))
      (l.filter (fun x => le r x && le x r)) :=
    (List.mergeSort_perm l le).filter _
  have h4 : l.filter (fun x => le r x && le x r)
      = (l.mergeSort le).filter (fun x => le r x && le x r) :=
    h2.eq_of_length h3.length_eq.symm
  have h5 : List.Sublist [r, s] ((l.mergeSort le).filter (fun x => le r x && le x r)) := by
    have hf := h.filter (fun x => le r x && le x r)
    have : ([r, s].filter (fun x => le r x && le x r)) = [r, s] := by
      simp [List.filter, hlerr, hrs, hsr]
    rwa [this] at hf
  exact (h4 ▸ h5).trans (List.filter_sublist l)

/-! ## Behaviour of `SortNode` -/

theorem sortRows_perm (cols : List String) :
    ∀ (scs : List SortColumn) (rows out : List Row),
      sortRows cols scs rows = .ok out → List.Perm out rows := by
  intro scs
  induction scs with
  | nil =>
    intro rows out h
    simp only [sortRows, Except.ok.injEq] at h
    subst h
    exact List.Perm.refl _
  | cons sc rest ih =>
    intro rows out h
    simp only [sortRows] at h
    cases hm : sortRows cols rest rows with
    | error e => rw [hm] at h; exact absurd h (by simp)
    | ok m =>
      rw [hm] at h
      cases hci : colIndex cols sc.column with
      | none => rw [hci] at h; exact absurd h (by simp)
      | some i =>
        rw [hci] at h
        simp only [Except.ok.injEq] at h
        subst h
        exact (List.mergeSort_perm m _).trans (ih rows m hm)

theorem sortRows_pairwise (cols : List String) :
    ∀ (scs : List SortColumn) (rows out : List Row),
      sortRows cols scs rows = .ok out →
      out.Pairwise (fun r s => lexLe cols scs s r = true) := by
  intro scs
  induction scs with
  | nil =>
    intro rows out h
    apply List.pairwise_of_forall_mem_list
    intro a _ b _
    rfl
  | cons sc rest ih =>
    intro rows out h
    simp only [sortRows] at h
    cases hm : sortRows cols rest rows with
    | error e => rw [hm] at h; exact absurd h (by simp)
    | ok m =>
      rw [hm] at h
      cases hci : colIndex cols sc.column with
      | none => rw [hci] at h; exact absurd h (by simp)
      | some i =>
        rw [hci] at h
        simp only [Except.ok.injEq] at h
        subst h
        rw [List.pairwise_iff_forall_sublist]
        intro r s hsub
        show lexLe cols (sc :: rest) s r = true
        simp only [lexLe, hci]
        by_cases htie : tiedAt i s r = true
        · rw [if_pos htie]
          have h1 : Value.le (keyAt s i) (keyAt r i) = true :=
            (Bool.and_eq_true_iff.mp htie).1
          have h2 : Value.le (keyAt r i) (keyAt s i) = true :=
            (Bool.and_eq_true_iff.mp htie).2
          have hrs : sortStepLe sc.asc i r s = true := by
            unfold sortStepLe; cases sc.asc <;> simp [h1, h2]
          have hsr : sortStepLe sc.asc i s r = true := by
            unfold sortStepLe; cases sc.asc <;> simp [h1, h2]
          have hsubm : List.Sublist [r, s] m :=
            tied_pair_sublist_of_mergeSort _ (sortStepLe_trans sc.asc i)
              (sortStepLe_total sc.asc i) hrs hsr hsub
          exact List.pairwise_iff_forall_sublist.mp (ih rows m hm) hsubm
        · rw [if_neg htie]
          exact List.pairwise_iff_forall_sublist.mp
            (List.sorted_mergeSort (sortStepLe_trans sc.asc i)
              (fun a b => sortStepLe_total sc.asc i a b) m) hsub

theorem sortRows_tied_sublist (cols : List String) :
    ∀ (scs : List SortColumn) (rows out c : List Row),
      sortRows cols scs rows = .ok out →
      List.Sublist c rows →
      c.Pairwise (fun r s => tiedAll cols scs r s = true) →
      List.Sublist c out := by
  intro scs
  induction scs with
  | nil =>
    intro rows out c h hc _
    simp only [sortRows, Except.ok.injEq] at h
    subst h
    exact hc
  | cons sc rest ih =>
    intro rows out c h hc hcp
    simp only [sortRows] at h
    cases hm : sortRows cols rest rows with
    | error e => rw [hm] at h; exact absurd h (by simp)
    | ok m =>
      rw [hm] at h
      cases hci : colIndex cols sc.column with
      | none => rw [hci] at h; exact absurd h (by simp)
      | some i =>
        rw [hci] at h
        simp only [Except.ok.injEq] at h
        subst h
        have htied : ∀ r s : Row, tiedAll cols (sc :: rest) r s = true →
            tiedAt i r s = true ∧ tiedAll cols rest r s = true := by
          intro r s hti
          simp only [tiedAll, List.all_cons, Bool.and_eq_true_iff] at hti
          refine ⟨?_, hti.2⟩
          have := hti.1
          rw [hci] at this
          exact this
        have hrest : c.Pairwise (fun r s => tiedAll cols rest r s = true) :=
          hcp.imp (fun hti => (htied _ _ hti).2)
        have hcm : List.Sublist c m := ih rows m c hm hc hrest
        have hcpair : c.Pairwise (fun a b => sortStepLe sc.asc i a b = true) := by
          refine hcp.imp ?_
          intro r s hti
          have ht := (htied r s hti).1
          have h1 := (Bool.and_eq_true_iff.mp ht).1
          have h2 := (Bool.and_eq_true_iff.mp ht).2
          unfold sortStepLe
          cases sc.asc <;> simp [h1, h2]
        exact List.sublist_mergeSort (sortStepLe_trans sc.asc i)
          (fun a b => sortStepLe_total sc.asc i a b) hcpair hcm

/-! ## Claim C4 — `SortNode` ordering and (anti-)stability -/

/-- Concrete evaluation: `SortNode` over child `[r₁, r₂]` with both rows
equal on the single ascending key `k` emits `[r₂, r₁]`. -/
theorem sortNode_tied_pair_eval :
    sortNodeRows ["k", "v"] [⟨"k", true⟩]
        [[Value.uint 1, Value.text [120]], [Value.uint 1, Value.text [121]]]
      = .ok [[Value.uint 1, Value.text [121]], [Value.uint 1, Value.text [120]]] := by
  have h2 : ([[Value.uint 1, Value.text [120]], [Value.uint 1, Value.text [121]]] :
        List Row).mergeSort (sortStepLe true 0)
      = [[Value.uint 1, Value.text [120]], [Value.uint 1, Value.text [121]]] := by
    rw [mergeSort_pair, if_pos (by decide)]
  have hrows : sortRows ["k", "v"] [⟨"k", true⟩]
        [[Value.uint 1, Value.text [120]], [Value.uint 1, Value.text [121]]]
      = .ok (([[Value.uint 1, Value.text [120]], [Value.uint 1, Value.text [121]]] :
          List Row).mergeSort (sortStepLe true 0)) := rfl
  unfold sortNodeRows
  rw [hrows, h2]
  rfl

/-- Counterexample to claim C4's stability clause: two rows equal on the
single ascending sort key `k` come out of `SortNode` in *reverse* child
order.  The stable descending pre-sort leaves `reverse_sorted_rows` as
`[r₁, r₂]`, and popping from the tail then emits `r₂` before `r₁`. -/
theorem claim4_equal_rows_reversed :
    sortNodeRows ["k", "v"] [⟨"k", true⟩]
        [[Value.uint 1, Value.text [120]], [Value.uint 1, Value.text [121]]]
      = .ok [[Value.uint 1, Value.text [121]], [Value.uint 1, Value.text [120]]] ∧
    tiedAll ["k", "v"] [⟨"k", true⟩]
        [Value.uint 1, Value.text [120]] [Value.uint 1, Value.text [121]] = true ∧
    ([[Value.uint 1, Value.text [121]], [Value.uint 1, Value.text [120]]] : List Row)
      ≠ [[Value.uint 1, Value.text [120]], [Value.uint 1, Value.text [121]]] := by
  exact ⟨sortNode_tied_pair_eval, by decide, by decide⟩

/-- Claim C4 as amended: for a non-empty sort-column list (with resolvable
columns, else `SortNode` raises), the node emits a permutation of the child
rows, lexicographically ordered by the sort columns with each key ascending
or descending as specified — but rows that compare equal on *all* sort keys
appear in the **reverse** of the child's order (each tied group is emitted
backwards), not in child order as the claim stated. -/
theorem claim4_sort_lexicographic_ties_reversed (cols : List String)
    (scs : List SortColumn) (rows out : List Row) (hne : scs ≠ [])
    (h : sortNodeRows cols scs rows = .ok out) :
    List.Perm out rows ∧
    out.Pairwise (fun r s => lexLe cols scs r s = true) ∧
    (∀ c, List.Sublist c rows →
      c.Pairwise (fun r s => tiedAll cols scs r s = true) →
      List.Sublist c.reverse out) := by
  unfold sortNodeRows at h
  cases hsr : sortRows cols scs rows with
  | error e => rw [hsr] at h; exact absurd h (by simp)
  | ok pre =>
    rw [hsr] at h
    simp only [Except.ok.injEq] at h
    subst h
    refine ⟨?_, ?_, ?_⟩
    · exact (List.reverse_perm pre).trans (sortRows_perm cols scs rows pre hsr)
    · rw [List.pairwise_reverse]
      exact sortRows_pairwise cols scs rows pre hsr
    · intro c hc hcp
      have : List.Sublist c pre := sortRows_tied_sublist cols scs rows pre c hsr hc hcp
      exact List.reverse_sublist.mpr this

/-- Witness for C4's amended theorem, at the counterexample's instance. -/
theorem claim4_sort_lexicographic_ties_reversed_witness :
    ([⟨"k", true⟩] : List SortColumn) ≠ [] ∧
    sortNodeRows ["k", "v"] [⟨"k", true⟩]
        [[Value.uint 1, Value.text [120]], [Value.uint 1, Value.text [121]]]
      = .ok [[Value.uint 1, Value.text [121]], [Value.uint 1, Value.text [120]]] ∧
    (List.Perm
        [[Value.uint 1, Value.text [121]], [Value.uint 1, Value.text [120]]]
        [[Value.uint 1, Value.text [120]], [Value.uint 1, Value.text [121]]] ∧
      ([[Value.uint 1, Value.text [121]], [Value.uint 1, Value.text [120]]] : List Row).Pairwise
        (fun r s => lexLe ["k", "v"] [⟨"k", true⟩] r s = true) ∧
      (∀ c, List.Sublist c
          [[Value.uint 1, Value.text [120]], [Value.uint 1, Value.text [121]]] →
        c.Pairwise (fun r s => tiedAll ["k", "v"] [⟨"k", true⟩] r s = true) →
        List.Sublist c.reverse
          [[Value.uint 1, Value.text [121]], [Value.uint 1, Value.text [120]]])) :=
  ⟨by decide, sortNode_tied_pair_eval,
    claim4_sort_lexicographic_ties_reversed ["k", "v"] [⟨"k", true⟩]
      [[Value.uint 1, Value.text [120]], [Value.uint 1, Value.text [121]]]
      [[Value.uint 1, Value.text [121]], [Value.uint 1, Value.text [120]]]
      (by decide) sortNode_tied_pair_eval⟩

/-! ## Pointwise lemmas for buffer writes and slices -/

theorem getElem?_take_full {α : Type} (l : List α) (n m : Nat) :
    (l.take n)[m]? = if m < n then l[m]? else none := by
  split
  · exact List.getElem?_take_of_lt (by assumption)
  · apply List.getElem?_eq_none
    rw [List.length_take]
    omega

theorem getElem?_writeBytes (b d : List Nat) (i j : Nat) (hi : i ≤ b.length) :
    (writeBytes b i d)[j]? =
      if j < i then b[j]?
      else if j < i + d.length then d[j - i]?
      else b[j]? := by
  unfold writeBytes
  have hlen : (b.take i).length = i := by
    rw [List.length_take]
    omega
  by_cases h1 : j < i
  · rw [if_pos h1,
      List.getElem?_append_left (by rw [List.length_append, hlen]; omega),
      List.getElem?_append_left (by rw [hlen]; omega),
      getElem?_take_full, if_pos h1]
  · rw [if_neg h1]
    by_cases h2 : j < i + d.length
    · rw [if_pos h2,
        List.getElem?_append_left (by rw [List.length_append, hlen]; omega),
        List.getElem?_append_right (by rw [hlen]; omega), hlen]
    · rw [if_neg h2,
        List.getElem?_append_right (by rw [List.length_append, hlen]; omega),
        List.getElem?_drop, List.length_append, hlen]
      congr 1
      omega

theorem length_writeBytes (b d : List Nat) (i : Nat) (h : i + d.length ≤ b.length) :
    (writeBytes b i d).length = b.length := by
  simp [writeBytes]
  omega

theorem getElem?_slice (b : List Nat) (a c k : Nat) :
    (slice b a c)[k]? = if a + k < c then b[a + k]? else none := by
  unfold slice
  rw [List.getElem?_drop, getElem?_take_full]

theorem slice_writeBytes_left (b d : List Nat) (i a c : Nat) (hi : i ≤ b.length)
    (hc : c ≤ i) : slice (writeBytes b i d) a c = slice b a c := by
  apply List.ext_getElem?
  intro k
  rw [getElem?_slice, getElem?_slice]
  split
  · rw [getElem?_writeBytes b d i (a + k) hi, if_pos (by omega)]
  · rfl

theorem slice_writeBytes_right (b d : List Nat) (i a c : Nat) (hi : i ≤ b.length)
    (ha : i + d.length ≤ a) : slice (writeBytes b i d) a c = slice b a c := by
  apply List.ext_getElem?
  intro k
  rw [getElem?_slice, getElem?_slice]
  split
  · rw [getElem?_writeBytes b d i (a + k) hi, if_neg (by omega), if_neg (by omega)]
  · rfl

theorem slice_writeBytes_self (b d : List Nat) (i : Nat)
    (h : i + d.length ≤ b.length) :
    slice (writeBytes b i d) i (i + d.length) = d := by
  apply List.ext_getElem?
  intro k
  rw [getElem?_slice]
  by_cases hk : k < d.length
  · rw [if_pos (by omega), getElem?_writeBytes b d i (i + k) (by omega),
      if_neg (by omega), if_pos (by omega)]
    congr 1
    omega
  · rw [if_neg (by omega)]
    exact (List.getElem?_eq_none (by omega)).symm

theorem readU16_eq_getElem? (b : List Nat) (i : Nat) :
    readU16 b i = (b[i]?).getD 0 + 256 * (b[i + 1]?).getD 0 := by
  simp [readU16, List.getD_eq_getElem?_getD]

theorem readU16_writeBytes_left (b d : List Nat) (i j : Nat) (hi : i ≤ b.length)
    (h : j + 2 ≤ i) : readU16 (writeBytes b i d) j = readU16 b j := by
  rw [readU16_eq_getElem?, readU16_eq_getElem?,
    getElem?_writeBytes b d i j hi, if_pos (by omega),
    getElem?_writeBytes b d i (j + 1) hi, if_pos (by omega)]

theorem readU16_writeBytes_right (b d : List Nat) (i j : Nat) (hi : i ≤ b.length)
    (h : i + d.length ≤ j) : readU16 (writeBytes b i d) j = readU16 b j := by
  rw [readU16_eq_getElem?, readU16_eq_getElem?,
    getElem?_writeBytes b d i j hi, if_neg (by omega), if_neg (by omega),
    getElem?_writeBytes b d i (j + 1) hi, if_neg (by omega), if_neg (by omega)]

theorem readU16_writeBytes_u16 (b : List Nat) (i v : Nat)
    (h2 : i + 2 ≤ b.length) (hv : v < 65536) :
    readU16 (writeBytes b i (u16Bytes v)) i = v := by
  rw [readU16_eq_getElem?,
    getElem?_writeBytes b (u16Bytes v) i i (by omega),
    getElem?_writeBytes b (u16Bytes v) i (i + 1) (by omega)]
  unfold u16Bytes
  rw [if_neg (by omega), if_pos (by simp),
    if_neg (by omega), if_pos (by simp)]
  simp only [Nat.sub_self, List.getElem?_cons_zero, Option.getD_some]
  have : i + 1 - i = 1 := by omega
  rw [this]
  simp only [List.getElem?_cons_succ, List.getElem?_cons_zero, Option.getD_some]
  omega

/-! ## Arithmetic of record-image lists -/

theorem sumLens_nil : sumLens [] = 0 := rfl

theorem sumLens_append (recs : List (List Nat)) (bin : List Nat) :
    sumLens (recs ++ [bin]) = sumLens recs + bin.length := by
  simp [sumLens]

theorem sumLens_take_add_drop (recs : List (List Nat)) (i : Nat) :
    sumLens (recs.take i) + sumLens (recs.drop i) = sumLens recs := by
  unfold sumLens
  rw [← List.sum_append, ← List.map_append, List.take_append_drop]

theorem sumLens_take_le (recs : List (List Nat)) (i : Nat) :
    sumLens (recs.take i) ≤ sumLens recs := by
  have := sumLens_take_add_drop recs i
  omega

theorem sumLens_take_succ (recs : List (List Nat)) (i : Nat) (h : i < recs.length) :
    sumLens (recs.take (i + 1))
      = sumLens (recs.take i) + (recs.get ⟨i, h⟩).length := by
  rw [List.take_succ, List.getElem?_eq_getElem h]
  rw [show ((some recs[i]).toList) = [recs[i]] from rfl, sumLens_append]
  rfl

theorem sumLens_take_mono (recs : List (List Nat)) (i j : Nat) (h : i ≤ j) :
    sumLens (recs.take i) ≤ sumLens (recs.take j) := by
  have h1 := sumLens_take_le (recs.take j) i
  rwa [List.take_take, Nat.min_eq_left h] at h1

/-! ## `mapM` over `Except`, and range decodes -/

theorem mapM_except_ok_map {α β : Type} (f : α → Except DbError β) (g : α → β) :
    ∀ l : List α, (∀ a ∈ l, f a = .ok (g a)) → l.mapM f = .ok (l.map g) := by
  intro l
  induction l with
  | nil => intro _; rfl
  | cons a t ih =>
    intro h
    rw [List.mapM_cons, h a (by simp), ih (fun x hx => h x (by simp [hx]))]
    rfl

theorem map_getD_range {β : Type} (out : List β) (d : β) :
    (List.range out.length).map (fun i => out.getD i d) = out := by
  apply List.ext_getElem?
  intro k
  rw [List.getElem?_map]
  by_cases hk : k < out.length
  · rw [List.getElem?_range hk]
    simp [List.getD_eq_getElem?_getD, List.getElem?_eq_getElem hk]
  · rw [List.getElem?_eq_none (l := List.range out.length) (by simpa using hk)]
    simp [List.getElem?_eq_none (show out.length ≤ k by omega)]

/-! ## PageRep basic lemmas -/

theorem pageRep_new (schema : Schema) (ps : Nat) (h2 : 2 ≤ ps)
    (h6 : ps < 65536) : PageRep ps (HeapPage.new schema ps) [] := by
  refine ⟨h6, by simp [HeapPage.new], ?_, by simp [HeapPage.new], ?_, ?_, ?_, ?_⟩
  · simpa [HeapPage.new] using readU16_replicate_zero ps 0
  · simp [HeapPage.new, sumLens]
  · simp [sumLens]
    omega
  · intro i hi
    simp at hi
  · intro i hi
    simp at hi

theorem pageRep_freeBytes {ps : Nat} {p : HeapPage} {recs : List (List Nat)}
    (hrep : PageRep ps p recs) :
    p.freeBytes = (ps : Int) - 2 - 2 * recs.length - sumLens recs := by
  unfold HeapPage.freeBytes HeapPage.numRecords
  rw [hrep.hlen, hrep.hn, hrep.hrs]
  have hsum : sumLens recs ≤ ps := by
    have := hrep.hsep
    omega
  rw [Nat.cast_sub hsum]
  ring

/-- A buffer whose header word is zero holds no records. -/
theorem pageRows_of_zero_header (schema : Schema) (b : List Nat)
    (h : readU16 b 0 = 0) : pageRows schema b = .ok [] := by
  unfold pageRows
  rw [h]
  rfl

/-! ## `insert_record` preserves the page representation -/

theorem pageRep_insertRecord (ps : Nat) (p : HeapPage) (recs : List (List Nat))
    (r : Row) (bin : List Nat) (hrep : PageRep ps p recs)
    (hm : marshalRecord p.schema r = some bin)
    (hfit : (2 + (bin.length : Int)) ≤ p.freeBytes) :
    ∃ p', p.insertRecord r = .ok p' ∧ p'.schema = p.schema ∧
      PageRep ps p' (recs ++ [bin]) := by
  have hfree := pageRep_freeBytes hrep
  have hps6 : ps < 65536 := hrep.hps
  have key : 2 + 2 * (recs.length + 1) + (sumLens recs + bin.length) ≤ ps := by
    rw [hfree] at hfit
    omega
  have hsum_le : sumLens recs + bin.length ≤ ps := by omega
  have hcanfit : p.canFitRecord bin = true := by
    unfold HeapPage.canFitRecord
    simp [hfit]
  set rs1 : Nat := p.recordsStart - bin.length with hrs1
  have hrs1' : rs1 = ps - (sumLens recs + bin.length) := by
    rw [hrs1, hrep.hrs]
    omega
  have hA : 2 + 2 * recs.length + 2 ≤ rs1 := by omega
  have hB : rs1 + bin.length ≤ ps := by omega
  set pos2 : Nat := p.recordPointersEnd + 2 - 2 with hpos2def
  have hpos2 : pos2 = 2 + 2 * recs.length := by
    rw [hpos2def, hrep.hrpe]
    omega
  set b1 := writeBytes p.buff rs1 bin with hb1
  set b2 := writeBytes b1 pos2 (u16Bytes rs1) with hb2
  set b3 := writeBytes b2 0 (u16Bytes (readU16 b2 0 + 1)) with hb3
  have hlen1 : b1.length = ps := by
    rw [hb1, length_writeBytes p.buff bin rs1 (by rw [hrep.hlen]; omega), hrep.hlen]
  have hlen2 : b2.length = ps := by
    rw [hb2, length_writeBytes b1 _ pos2 (by simp [u16Bytes, hlen1, hpos2]; omega),
      hlen1]
  have hn2 : readU16 b2 0 = recs.length := by
    rw [hb2, readU16_writeBytes_left b1 _ pos2 0 (by rw [hlen1, hpos2]; omega)
        (by rw [hpos2]; omega),
      hb1, readU16_writeBytes_left p.buff bin rs1 0 (by rw [hrep.hlen]; omega)
        (by omega)]
    exact hrep.hn
  have hlen3 : b3.length = ps := by
    rw [hb3, length_writeBytes b2 _ 0 (by simp [u16Bytes, hlen2]; omega), hlen2]
  refine ⟨⟨p.schema, b3, p.recordPointersEnd + 2, rs1⟩, ?_, rfl, ?_⟩
  · unfold HeapPage.insertRecord
    simp only [hm, hcanfit, eq_self_iff_true, if_true]
  · refine ⟨hrep.hps, hlen3, ?_, ?_, ?_, ?_, ?_, ?_⟩
    · -- header now reads recs.length + 1
      show readU16 b3 0 = (recs ++ [bin]).length
      rw [hb3, readU16_writeBytes_u16 b2 0 (readU16 b2 0 + 1)
          (by rw [hlen2]; omega) (by rw [hn2]; omega), hn2]
      simp
    · show p.recordPointersEnd + 2 = 2 + 2 * (recs ++ [bin]).length
      rw [hrep.hrpe, List.length_append]
      simp
      omega
    · show rs1 = ps - sumLens (recs ++ [bin])
      rw [hrs1', sumLens_append]
    · show 2 + 2 * (recs ++ [bin]).length + sumLens (recs ++ [bin]) ≤ ps
      rw [sumLens_append, List.length_append]
      simpa using key
    · -- slots
      intro i hi
      rw [List.length_append, List.length_singleton] at hi
      show readU16 b3 (2 + 2 * i) = ps - sumLens ((recs ++ [bin]).take (i + 1))
      have e1 : readU16 b3 (2 + 2 * i) = readU16 b2 (2 + 2 * i) := by
        rw [hb3]
        exact readU16_writeBytes_right b2 _ 0 (2 + 2 * i) (by omega)
          (by simp [u16Bytes])
      by_cases hin : i < recs.length
      · have e2 : readU16 b2 (2 + 2 * i) = readU16 b1 (2 + 2 * i) := by
          rw [hb2]
          exact readU16_writeBytes_left b1 _ pos2 (2 + 2 * i)
            (by rw [hlen1, hpos2]; omega) (by rw [hpos2]; omega)
        have e3 : readU16 b1 (2 + 2 * i) = readU16 p.buff (2 + 2 * i) := by
          rw [hb1]
          exact readU16_writeBytes_left p.buff bin rs1 (2 + 2 * i)
            (by rw [hrep.hlen]; omega) (by omega)
        rw [e1, e2, e3, hrep.hslot i hin,
          List.take_append_of_le_length (by omega)]
      · have hieq : i = recs.length := by omega
        subst hieq
        have e2 : readU16 b2 (2 + 2 * recs.length) = rs1 := by
          rw [hb2, hpos2]
          exact readU16_writeBytes_u16 b1 (2 + 2 * recs.length) rs1
            (by rw [hlen1]; omega) (by omega)
        rw [e1, e2, List.take_of_length_le (by simp),
          sumLens_append, hrs1']
    · -- record slices
      intro i hi
      rw [List.length_append, List.length_singleton] at hi
      by_cases hin : i < recs.length
      · rw [List.take_append_of_le_length (show i + 1 ≤ recs.length by omega),
          List.take_append_of_le_length (show i ≤ recs.length by omega)]
        have hub := sumLens_take_le recs (i + 1)
        have ha_ge : rs1 + bin.length ≤ ps - sumLens (recs.take (i + 1)) := by
          omega
        have e1 : slice b3 (ps - sumLens (recs.take (i + 1)))
              (ps - sumLens (recs.take i))
            = slice b2 (ps - sumLens (recs.take (i + 1)))
              (ps - sumLens (recs.take i)) := by
          rw [hb3]
          exact slice_writeBytes_right b2 _ 0 _ _ (by omega)
            (by simp [u16Bytes]; omega)
        have e2 : slice b2 (ps - sumLens (recs.take (i + 1)))
              (ps - sumLens (recs.take i))
            = slice b1 (ps - sumLens (recs.take (i + 1)))
              (ps - sumLens (recs.take i)) := by
          rw [hb2]
          exact slice_writeBytes_right b1 _ pos2 _ _ (by rw [hlen1, hpos2]; omega)
            (by rw [hpos2]; simp [u16Bytes]; omega)
        have e3 : slice b1 (ps - sumLens (recs.take (i + 1)))
              (ps - sumLens (recs.take i))
            = slice p.buff (ps - sumLens (recs.take (i + 1)))
              (ps - sumLens (recs.take i)) := by
          rw [hb1]
          exact slice_writeBytes_right p.buff bin rs1 _ _
            (by rw [hrep.hlen]; omega) (by omega)
        rw [e1, e2, e3]
        rw [hrep.hrec i hin]
        exact (List.getElem_append_left hin).symm
      · have hieq : i = recs.length := by omega
        subst hieq
        have htk1 : (recs ++ [bin]).take (recs.length + 1) = recs ++ [bin] :=
          List.take_of_length_le (by simp)
        have htk0 : (recs ++ [bin]).take recs.length = recs :=
          (List.take_append_of_le_length (Nat.le_refl _)).trans
            (List.take_length recs)
        rw [htk1, htk0, sumLens_append]
        have hc : ps - sumLens recs = rs1 + bin.length := by omega
        have ha : ps - (sumLens recs + bin.length) = rs1 := hrs1'.symm
        rw [ha, hc]
        have e1 : slice b3 rs1 (rs1 + bin.length)
            = slice b2 rs1 (rs1 + bin.length) := by
          rw [hb3]
          exact slice_writeBytes_right b2 _ 0 _ _ (by omega)
            (by simp [u16Bytes]; omega)
        have e2 : slice b2 rs1 (rs1 + bin.length)
            = slice b1 rs1 (rs1 + bin.length) := by
          rw [hb2]
          exact slice_writeBytes_right b1 _ pos2 _ _ (by rw [hlen1, hpos2]; omega)
            (by rw [hpos2]; simp [u16Bytes]; omega)
        have e3 : slice b1 rs1 (rs1 + bin.length) = bin := by
          rw [hb1]
          exact slice_writeBytes_self p.buff bin rs1 (by rw [hrep.hlen]; omega)
        rw [e1, e2, e3]
        have : (recs ++ [bin]).get ⟨recs.length, by simp⟩ = bin := by
          simp
        exact this.symm

/-! ## Decoding a represented page -/

theorem getD_eq_get_of_lt {β : Type} (out : List β) (d : β) (i : Nat)
    (h : i < out.length) : out.getD i d = out.get ⟨i, h⟩ := by
  rw [List.getD_eq_getElem?_getD, List.getElem?_eq_getElem h]
  rfl

theorem pageRows_of_rep (schema : Schema) (ps : Nat) (p : HeapPage)
    (recs : List (List Nat)) (rows : List Row) (hrep : PageRep ps p recs)
    (hdec : recsDecode schema recs rows) :
    pageRows schema p.buff = .ok rows := by
  have hlenr : recs.length = rows.length := List.Forall₂.length_eq hdec
  have hpoint : ∀ i, i < recs.length →
      decodeRecordAt schema p.buff i = .ok (rows.getD i []) := by
    intro i hi
    unfold decodeRecordAt
    have hstart : getRecordStartIdx p.buff (i : Int)
        = ps - sumLens (recs.take (i + 1)) := by
      unfold getRecordStartIdx
      have ht : ((2 : Int) + 2 * (i : Int)).toNat = 2 + 2 * i := by omega
      rw [ht]
      exact hrep.hslot i hi
    have hstop : (if i = 0 then p.buff.length
          else getRecordStartIdx p.buff ((i : Int) - 1))
        = ps - sumLens (recs.take i) := by
      by_cases h0 : i = 0
      · subst h0
        rw [if_pos rfl, hrep.hlen]
        simp [sumLens]
      · rw [if_neg h0]
        unfold getRecordStartIdx
        have hi1 : i - 1 < recs.length := by omega
        have ht : ((2 : Int) + 2 * ((i : Int) - 1)).toNat = 2 + 2 * (i - 1) := by
          omega
        rw [ht, hrep.hslot (i - 1) hi1, show i - 1 + 1 = i by omega]
    rw [hstart, hstop, hrep.hrec i hi]
    have hry : i < rows.length := by omega
    have hdi : unmarshalRecord schema (recs.get ⟨i, hi⟩)
        = some (rows.getD i [], []) := by
      rw [getD_eq_get_of_lt rows [] i hry]
      exact hdec.get hi hry
    rw [hdi]
  unfold pageRows
  rw [hrep.hn,
    mapM_except_ok_map (decodeRecordAt schema p.buff) (fun i => rows.getD i [])
      (List.range recs.length)
      (fun a ha => hpoint a (List.mem_range.mp ha)),
    hlenr, map_getD_range rows []]

/-! ## Failure cases and the adopted-empty-page state -/

theorem rowFits_spec (schema : Schema) (ps : Nat) (r : Row)
    (h : RowFits schema ps r) :
    ∃ bin, marshalRecord schema r = some bin ∧
      unmarshalRecord schema bin = some (r, []) ∧
      (2 + (bin.length : Int)) ≤ (ps : Int) - 2 := by
  unfold RowFits rowFitsB at h
  cases hm : marshalRecord schema r with
  | none => rw [hm] at h; exact absurd h (by simp)
  | some bin =>
    rw [hm] at h
    simp only [Bool.and_eq_true_iff, decide_eq_true_eq] at h
    exact ⟨bin, rfl, h.1, h.2⟩

theorem insertRecord_insufficient (p : HeapPage) (r : Row) (bin : List Nat)
    (hm : marshalRecord p.schema r = some bin)
    (hfit : ¬ (2 + (bin.length : Int)) ≤ p.freeBytes) :
    p.insertRecord r = .error .insufficientSpace := by
  unfold HeapPage.insertRecord
  have hc : p.canFitRecord bin = false := by
    simp [HeapPage.canFitRecord, hfit]
  simp only [hm, hc, Bool.false_eq_true, if_false]

/-- The page adopted from the empty-page image reports `free_bytes() = -2`
(the C2 slip), so every insert into it fails. -/
theorem fromBuffer_replicate_freeBytes (schema : Schema) (ps : Nat) :
    (HeapPage.fromBuffer schema (List.replicate ps 0)).freeBytes = -2 := by
  have h0 : readU16 (List.replicate ps 0) 0 = 0 := readU16_replicate_zero ps 0
  have hrs : (HeapPage.fromBuffer schema (List.replicate ps 0)).recordsStart = 0 := by
    show getRecordStartIdx (List.replicate ps 0)
      ((readU16 (List.replicate ps 0) 0 : Int) - 1) = 0
    rw [h0, Nat.cast_zero]
    unfold getRecordStartIdx
    rw [show ((2 : Int) + 2 * ((0 : Int) - 1)).toNat = 0 by decide]
    exact readU16_replicate_zero ps 0
  unfold HeapPage.freeBytes HeapPage.numRecords
  rw [hrs]
  show ((List.replicate ps (0 : Nat)).length : Int) - 2
      - 2 * (readU16 (List.replicate ps 0) 0 : Int)
      - (((List.replicate ps (0 : Nat)).length : Int) - ((0 : Nat) : Int)) = -2
  rw [h0, List.length_replicate]
  push_cast
  ring

theorem fromBuffer_replicate_insert_fails (schema : Schema) (ps : Nat)
    (r : Row) (bin : List Nat) (hm : marshalRecord schema r = some bin) :
    (HeapPage.fromBuffer schema (List.replicate ps 0)).insertRecord r
      = .error .insufficientSpace := by
  apply insertRecord_insufficient _ _ bin hm
  rw [fromBuffer_replicate_freeBytes]
  intro hcon
  omega

/-! ## Scanning lemmas -/

theorem scanFileAux_eq (schema : Schema) (ps fuel : Nat) (file : List Nat) :
    scanFileAux schema ps fuel file
      = if (file.take ps).length = 0 then .ok []
        else if (file.take ps).length ≠ ps then .error .corruptedStorage
        else
          match pageRows schema (file.take ps) with
          | .error e => .error e
          | .ok rows =>
            match fuel with
            | 0 => .error .corruptedStorage
            | fuel' + 1 =>
              match scanFileAux schema ps fuel' (file.drop ps) with
              | .error e => .error e
              | .ok rest => .ok (rows ++ rest) := by
  rw [scanFileAux]

theorem scanFileAux_succ (schema : Schema) (ps fuel : Nat) (file : List Nat) :
    scanFileAux schema ps (fuel + 1) file
      = if (file.take ps).length = 0 then .ok []
        else if (file.take ps).length ≠ ps then .error .corruptedStorage
        else
          match pageRows schema (file.take ps) with
          | .error e => .error e
          | .ok rows =>
            match scanFileAux schema ps fuel (file.drop ps) with
            | .error e => .error e
            | .ok rest => .ok (rows ++ rest) := by
  rw [scanFileAux]

theorem scanFile_nil (schema : Schema) (ps : Nat) :
    scanFile schema ps [] = .ok [] := by
  unfold scanFile
  rw [scanFileAux_eq]
  simp

theorem scanFileAux_congr (schema : Schema) (ps : Nat) :
    ∀ fuel₁ fuel₂ file, file.length ≤ fuel₁ → file.length ≤ fuel₂ →
      scanFileAux schema ps fuel₁ file = scanFileAux schema ps fuel₂ file := by
  intro fuel₁
  induction fuel₁ with
  | zero =>
    intro fuel₂ file h1 _
    have : file = [] := List.eq_nil_of_length_eq_zero (by omega)
    subst this
    rw [scanFileAux_eq, scanFileAux_eq]
    simp
  | succ f ih =>
    intro fuel₂ file h1 h2
    by_cases hc0 : (file.take ps).length = 0
    · rw [scanFileAux_eq, scanFileAux_eq, if_pos hc0, if_pos hc0]
    · by_cases hcp : (file.take ps).length ≠ ps
      · rw [scanFileAux_eq, scanFileAux_eq, if_neg hc0, if_neg hc0,
          if_pos hcp, if_pos hcp]
      · have hps : 0 < ps := by
          rw [List.length_take] at hc0 hcp
          omega
        have hflen : 0 < file.length := by
          rw [List.length_take] at hc0
          omega
        cases fuel₂ with
        | zero => omega
        | succ g =>
          rw [scanFileAux_succ, scanFileAux_succ, if_neg hc0, if_neg hc0,
            if_neg hcp, if_neg hcp]
          cases hpr : pageRows schema (file.take ps) with
          | error e => rfl
          | ok rows =>
            rw [ih g (file.drop ps) (by rw [List.length_drop]; omega)
              (by rw [List.length_drop]; omega)]

theorem scanFile_cons_page (schema : Schema) (ps : Nat) (img rest : List Nat)
    (hps : 0 < ps) (hlen : img.length = ps) :
    scanFile schema ps (img ++ rest)
      = match pageRows schema img with
        | .error e => .error e
        | .ok rows =>
          match scanFile schema ps rest with
          | .error e => .error e
          | .ok rs => .ok (rows ++ rs) := by
  unfold scanFile
  have hL : (img ++ rest).length = (ps + rest.length - 1) + 1 := by
    rw [List.length_append, hlen]
    omega
  rw [hL, scanFileAux_succ]
  have htake : (img ++ rest).take ps = img := List.take_left' hlen
  have hdrop : (img ++ rest).drop ps = rest := List.drop_left' hlen
  rw [htake, hdrop, if_neg (by omega), if_neg (by omega)]
  cases hpr : pageRows schema img with
  | error e => rfl
  | ok rows =>
    rw [scanFileAux_congr schema ps (ps + rest.length - 1) rest.length rest
      (by omega) (by omega)]

theorem scanFile_flatten (schema : Schema) (ps : Nat) (hps : 0 < ps) :
    ∀ (imgs : List (List Nat)) (rowss : List (List Row)),
      List.Forall₂ (fun img rws => img.length = ps ∧ pageRows schema img = .ok rws)
        imgs rowss →
      scanFile schema ps imgs.flatten = .ok rowss.flatten := by
  intro imgs rowss h
  induction h with
  | nil => exact scanFile_nil schema ps
  | cons hbase htail ih =>
    rw [List.flatten_cons, scanFile_cons_page schema ps _ _ hps hbase.1,
      hbase.2, ih, List.flatten_cons]

theorem writeBytes_zero_cover (b d : List Nat) (h : b.length ≤ d.length) :
    writeBytes b 0 d = d := by
  unfold writeBytes
  rw [List.take_zero, List.nil_append, Nat.zero_add,
    List.drop_eq_nil_of_le h, List.append_nil]

/-! ## The `zip` truncation in `insert_record` -/

theorem zip_take_length {α β : Type} :
    ∀ (l₁ : List α) (l₂ : List β), l₁.zip (l₂.take l₁.length) = l₁.zip l₂
  | [], _ => by simp
  | _ :: _, [] => by simp
  | a :: t, b :: s => by
    simp only [List.length_cons, List.take_succ_cons, List.zip_cons_cons,
      List.cons.injEq, true_and]
    exact zip_take_length t s

theorem marshalRecord_take (schema : Schema) (r : List Value)
    (h : schema.length ≤ r.length) :
    marshalRecord schema r = marshalRecord schema (r.take schema.length) := by
  unfold marshalRecord
  rw [zip_take_length schema r]

/-! ## The insert loop preserves file contents -/

theorem insertFold_rep (schema : Schema) (ps : Nat) (h4 : 4 ≤ ps) :
    ∀ (rows : List Row) (w : List (List Nat)) (p : HeapPage)
      (recs : List (List Nat)) (prs : List Row) (n : Nat),
      p.schema = schema →
      PageRep ps p recs →
      recsDecode schema recs prs →
      recs ≠ [] →
      (∀ r ∈ rows, RowFits schema ps r) →
      ∃ (extraImgs : List (List Nat)) (extraRows : List (List Row))
        (p' : HeapPage) (recs' : List (List Nat)) (prs' : List Row),
        rows.foldlM (insertStep schema ps) (w, p, n)
          = .ok (w ++ extraImgs, p', n + rows.length) ∧
        p'.schema = schema ∧ PageRep ps p' recs' ∧
        recsDecode schema recs' prs' ∧ recs' ≠ [] ∧
        List.Forall₂ (fun img rws => img.length = ps ∧ pageRows schema img = .ok rws)
          extraImgs extraRows ∧
        extraRows.flatten ++ prs' = prs ++ rows := by
  intro rows
  induction rows with
  | nil =>
    intro w p recs prs n hsch hrep hdec hne _
    refine ⟨[], [], p, recs, prs, ?_, hsch, hrep, hdec, hne, List.Forall₂.nil, ?_⟩
    · simp [List.foldlM_nil, pure, Except.pure]
    · simp
  | cons r rest ih =>
    intro w p recs prs n hsch hrep hdec hne hfits
    obtain ⟨bin, hm, hrt, hfitf⟩ := rowFits_spec schema ps r (hfits r (by simp))
    have hfits' : ∀ x ∈ rest, RowFits schema ps x := fun x hx =>
      hfits x (by simp [hx])
    rw [List.foldlM_cons]
    by_cases hcap : (2 + (bin.length : Int)) ≤ p.freeBytes
    · -- fits on the current page
      obtain ⟨p1, hins, hsch1, hrep1⟩ :=
        pageRep_insertRecord ps p recs r bin hrep (by rw [hsch]; exact hm) hcap
      have hdec1 : recsDecode schema (recs ++ [bin]) (prs ++ [r]) :=
        List.rel_append hdec (List.Forall₂.cons hrt List.Forall₂.nil)
      have hstep : insertStep schema ps (w, p, n) r = .ok (w, p1, n + 1) := by
        simp only [insertStep, hins]
      rw [hstep]
      obtain ⟨eI, eR, p', recs', prs', hfold, hsch', hrep', hdec', hne', hfa, hfl⟩ :=
        ih w p1 (recs ++ [bin]) (prs ++ [r]) (n + 1)
          (hsch1.trans hsch) hrep1 hdec1 (by simp) hfits'
      refine ⟨eI, eR, p', recs', prs', ?_, hsch', hrep', hdec', hne', hfa, ?_⟩
      · show rest.foldlM (insertStep schema ps) (w, p1, n + 1)
            = .ok (w ++ eI, p', n + (r :: rest).length)
        rw [hfold]
        simp only [List.length_cons]
        rw [show n + 1 + rest.length = n + (rest.length + 1) by omega]
      · rw [hfl]
        simp
    · -- rotation: flush current page, insert into a fresh one
      have hfail : p.insertRecord r = .error .insufficientSpace :=
        insertRecord_insufficient p r bin (by rw [hsch]; exact hm) hcap
      have hfb : (HeapPage.new schema ps).freeBytes = (ps : Int) - 2 := by
        rw [pageRep_freeBytes (pageRep_new schema ps (by omega) hrep.hps)]
        simp [sumLens]
      obtain ⟨p1, hins, hsch1, hrep1⟩ :=
        pageRep_insertRecord ps (HeapPage.new schema ps) [] r bin
          (pageRep_new schema ps (by omega) hrep.hps)
          (by exact hm)
          (by rw [hfb]; omega)
      have hdec1 : recsDecode schema [bin] [r] :=
        List.Forall₂.cons hrt List.Forall₂.nil
      have hstep : insertStep schema ps (w, p, n) r
          = .ok (w ++ [p.marshall], p1, n + 1) := by
        simp only [insertStep, hfail, hins]
      rw [hstep]
      obtain ⟨eI, eR, p', recs', prs', hfold, hsch', hrep', hdec', hne', hfa, hfl⟩ :=
        ih (w ++ [p.marshall]) p1 [bin] [r] (n + 1)
          (hsch1.trans rfl) hrep1 hdec1 (by simp) hfits'
      refine ⟨p.marshall :: eI, prs :: eR, p', recs', prs', ?_, hsch', hrep',
        hdec', hne', ?_, ?_⟩
      · show rest.foldlM (insertStep schema ps) (w ++ [p.marshall], p1, n + 1)
            = .ok (w ++ (p.marshall :: eI), p', n + (r :: rest).length)
        rw [hfold]
        simp only [List.length_cons, List.append_assoc, List.singleton_append]
        rw [show n + 1 + rest.length = n + (rest.length + 1) by omega]
      · exact List.Forall₂.cons
          ⟨hrep.hlen, pageRows_of_rep schema ps p recs prs hrep hdec⟩ hfa
      · rw [List.flatten_cons, List.append_assoc, hfl]
        simp
  
/-! ## Claim C8 — insert-then-scan faithfulness -/

/-- Claim C8 (confirmed): inserting any sequence of well-typed rows that
each fit on one empty page, via `InsertNode`'s batch, into a freshly created
table (a single empty page), then scanning the table in full, yields exactly
the inserted rows, in insertion order, with equal values — and the reported
insert count is the number of rows.  (The file layout contains a leading
empty page that the scan transparently skips, per claims C2/C3/C10.) -/
theorem claim8_insert_then_scan_roundtrip (schema : Schema) (ps : Nat)
    (rows : List Row) (h4 : 4 ≤ ps) (h6 : ps < 65536)
    (hrows : ∀ r ∈ rows, RowFits schema ps r) :
    ∃ file', insertBatch schema ps ((HeapPage.new schema ps).marshall) rows
        = .ok (file', rows.length) ∧
      scanFile schema ps file' = .ok rows := by
  have hfile0 : (HeapPage.new schema ps).marshall = List.replicate ps 0 := rfl
  have hlen0 : (List.replicate ps (0 : Nat)).length = ps :=
    List.length_replicate ps 0
  have hdrop : (List.replicate ps (0 : Nat)).drop
      ((List.replicate ps (0 : Nat)).length - ps) = List.replicate ps 0 := by
    rw [hlen0, Nat.sub_self, List.drop_zero]
  have hscan0 : scanFile schema ps (List.replicate ps 0) = .ok [] := by
    have h := scanFile_cons_page schema ps (List.replicate ps 0) [] (by omega) hlen0
    rw [List.append_nil] at h
    rw [h, pageRows_of_zero_header schema _ (readU16_replicate_zero ps 0),
      scanFile_nil]
    rfl
  cases rows with
  | nil =>
    refine ⟨List.replicate ps 0, ?_, hscan0⟩
    unfold insertBatch
    rw [hfile0, hdrop]
    have hnum : (HeapPage.fromBuffer schema (List.replicate ps 0)).numRecords
        = 0 := readU16_replicate_zero ps 0
    simp only [List.foldlM_nil, pure, Except.pure, hnum, Nat.lt_irrefl,
      if_false, List.flatten_nil, List.length_nil]
    rw [writeBytes_nil]
  | cons r rest =>
    obtain ⟨bin, hm, hrt, hfitf⟩ := rowFits_spec schema ps r (hrows r (by simp))
    have hfail := fromBuffer_replicate_insert_fails schema ps r bin hm
    have hfb : (HeapPage.new schema ps).freeBytes = (ps : Int) - 2 := by
      rw [pageRep_freeBytes (pageRep_new schema ps (by omega) h6)]
      simp [sumLens]
    obtain ⟨p1, hins, hsch1, hrep1⟩ :=
      pageRep_insertRecord ps (HeapPage.new schema ps) [] r bin
        (pageRep_new schema ps (by omega) h6) hm (by rw [hfb]; omega)
    have hmarsh0 : (HeapPage.fromBuffer schema (List.replicate ps 0)).marshall
        = List.replicate ps 0 := rfl
    have hstep : insertStep schema ps
        ([], HeapPage.fromBuffer schema (List.replicate ps 0), 0) r
        = .ok ([List.replicate ps 0], p1, 1) := by
      simp only [insertStep, hfail, hins, hmarsh0, List.nil_append]
    obtain ⟨eI, eR, p', recs', prs', hfold, hsch', hrep', hdec', hne', hfa, hfl⟩ :=
      insertFold_rep schema ps h4 rest [List.replicate ps 0] p1 [bin] [r] 1
        (hsch1.trans rfl) hrep1 (List.Forall₂.cons hrt List.Forall₂.nil)
        (by simp) (fun x hx => hrows x (by simp [hx]))
    have hnum' : 0 < p'.numRecords := by
      show 0 < readU16 p'.buff 0
      rw [hrep'.hn]
      exact List.length_pos.mpr hne'
    refine ⟨(([List.replicate ps 0] ++ eI) ++ [p'.buff]).flatten, ?_, ?_⟩
    · have hfold2 : (r :: rest).foldlM (insertStep schema ps)
          ([], HeapPage.fromBuffer schema (List.replicate ps 0), 0)
          = .ok ([List.replicate ps 0] ++ eI, p', 1 + rest.length) := by
        rw [List.foldlM_cons, hstep]
        show rest.foldlM (insertStep schema ps) ([List.replicate ps 0], p1, 1) = _
        exact hfold
      unfold insertBatch
      rw [hfile0, hdrop, hfold2]
      have hwlen : (List.replicate ps (0 : Nat)).length
          ≤ ((([List.replicate ps 0] ++ eI) ++ [p'.buff]).flatten).length := by
        rw [hlen0]
        simp [List.flatten_append]
      simp only [if_pos hnum', hlen0, Nat.sub_self]
      rw [show (p'.marshall) = p'.buff from rfl]
      rw [writeBytes_zero_cover _ _ hwlen]
      simp [List.length_cons]
      omega
    · have hscan := scanFile_flatten schema ps (by omega)
        (([List.replicate ps 0] ++ eI) ++ [p'.buff]) (([[]] ++ eR) ++ [prs'])
        (List.rel_append
          (List.rel_append
            (List.Forall₂.cons
              ⟨hlen0, pageRows_of_zero_header schema _ (readU16_replicate_zero ps 0)⟩
              List.Forall₂.nil)
            hfa)
          (List.Forall₂.cons
            ⟨hrep'.hlen, pageRows_of_rep schema ps p' recs' prs' hrep' hdec'⟩
            List.Forall₂.nil))
      rw [hscan]
      simp only [List.flatten_append, List.flatten_cons, List.flatten_nil,
        List.nil_append, List.append_nil]
      rw [hfl]
      simp

/-- Witness for C8's theorem: two one-column rows on 32-byte pages. -/
theorem claim8_insert_then_scan_roundtrip_witness :
    4 ≤ 32 ∧ 32 < 65536 ∧
    (∀ r ∈ [[Value.uint 1], [Value.uint 2]], RowFits mSchema 32 r) ∧
    (∃ file', insertBatch mSchema 32 ((HeapPage.new mSchema 32).marshall)
        [[Value.uint 1], [Value.uint 2]]
        = .ok (file', ([[Value.uint 1], [Value.uint 2]] : List Row).length) ∧
      scanFile mSchema 32 file' = .ok [[Value.uint 1], [Value.uint 2]]) :=
  ⟨by decide, by decide, by decide,
    claim8_insert_then_scan_roundtrip mSchema 32 [[Value.uint 1], [Value.uint 2]]
      (by decide) (by decide) (by decide)⟩

/-! ## Claim C9 — no arity check in `insert_record` -/

/-- Claim C9 (confirmed): `insert_record` checks no row arity; a row longer
than the schema is truncated by the marshalling `zip`, the insert succeeds
whenever that marshalled prefix fits, only the first `len(schema)` values
are stored, and iterating the page afterwards returns the truncated row —
no error anywhere. -/
theorem claim9_insert_truncates_long_rows (schema : Schema) (ps : Nat)
    (p : HeapPage) (recs : List (List Nat)) (prs : List Row) (r : Row)
    (bin : List Nat)
    (hsch : p.schema = schema)
    (hrep : PageRep ps p recs) (hdec : recsDecode schema recs prs)
    (hlonger : schema.length < r.length)
    (hm : marshalRecord schema (r.take schema.length) = some bin)
    (hrt : unmarshalRecord schema bin = some (r.take schema.length, []))
    (hfit : (2 + (bin.length : Int)) ≤ p.freeBytes) :
    ∃ p', p.insertRecord r = .ok p' ∧
      pageRows schema p'.buff = .ok (prs ++ [r.take schema.length]) := by
  have hm' : marshalRecord p.schema r = some bin := by
    rw [hsch, marshalRecord_take schema r (by omega)]
    exact hm
  obtain ⟨p', hins, hsch', hrep'⟩ :=
    pageRep_insertRecord ps p recs r bin hrep hm' hfit
  exact ⟨p', hins,
    pageRows_of_rep schema ps p' (recs ++ [bin]) (prs ++ [r.take schema.length])
      hrep' (List.rel_append hdec (List.Forall₂.cons hrt List.Forall₂.nil))⟩

/-- Witness for C9's theorem: the two-value row `[5, 9]` against the
one-column `mSchema` on a fresh 32-byte page stores and returns `[5]`. -/
theorem claim9_insert_truncates_long_rows_witness :
    (HeapPage.new mSchema 32).schema = mSchema ∧
    mSchema.length < ([Value.uint 5, Value.uint 9] : Row).length ∧
    marshalRecord mSchema (([Value.uint 5, Value.uint 9] : Row).take mSchema.length)
      = some [5, 0, 0, 0] ∧
    unmarshalRecord mSchema [5, 0, 0, 0]
      = some (([Value.uint 5, Value.uint 9] : Row).take mSchema.length, []) ∧
    (∃ p', (HeapPage.new mSchema 32).insertRecord [Value.uint 5, Value.uint 9]
        = .ok p' ∧
      pageRows mSchema p'.buff
        = .ok ([] ++ [([Value.uint 5, Value.uint 9] : Row).take mSchema.length])) :=
  ⟨rfl, by decide, by decide, by decide,
    claim9_insert_truncates_long_rows mSchema 32 (HeapPage.new mSchema 32) [] []
      [Value.uint 5, Value.uint 9] [5, 0, 0, 0] rfl
      (pageRep_new mSchema 32 (by decide) (by decide)) List.Forall₂.nil
      (by decide) (by decide) (by decide) (by decide)⟩

/-! ## Claim C10 — scans are transparent to empty pages -/

theorem scanFile_skip_empty (schema : Schema) (ps : Nat) (hps : 0 < ps)
    (emptyImg : List Nat) (hemp : emptyImg.length = ps)
    (hhdr : readU16 emptyImg 0 = 0) :
    ∀ (pre post : List (List Nat)), (∀ img ∈ pre, img.length = ps) →
      scanFile schema ps ((pre ++ [emptyImg] ++ post).flatten)
        = scanFile schema ps ((pre ++ post).flatten) := by
  intro pre
  induction pre with
  | nil =>
    intro post _
    simp only [List.nil_append, List.singleton_append, List.flatten_cons]
    rw [scanFile_cons_page schema ps emptyImg post.flatten hps hemp,
      pageRows_of_zero_header schema emptyImg hhdr]
    cases scanFile schema ps post.flatten <;> simp
  | cons img pre' ih =>
    intro post hpre
    have himg : img.length = ps := hpre img (by simp)
    have hpre' : ∀ x ∈ pre', x.length = ps := fun x hx => hpre x (by simp [hx])
    simp only [List.cons_append, List.flatten_cons]
    rw [scanFile_cons_page schema ps img _ hps himg,
      scanFile_cons_page schema ps img _ hps himg,
      ih post hpre']

theorem scanFile_all_empty (schema : Schema) (ps : Nat) (hps : 0 < ps) :
    ∀ k, scanFile schema ps (List.replicate k (List.replicate ps 0)).flatten
      = .ok [] := by
  intro k
  induction k with
  | zero => exact scanFile_nil schema ps
  | succ k ih =>
    rw [List.replicate_succ, List.flatten_cons,
      scanFile_cons_page schema ps _ _ hps (List.length_replicate ps 0),
      pageRows_of_zero_header schema _ (readU16_replicate_zero ps 0), ih]
    rfl

/-- Claim C10 (confirmed): `FileScanNode` tolerates empty pages anywhere in
the file: an empty page contributes no rows and the scan advances to the
next page, so deleting (or inserting) an empty page anywhere leaves the scan
result unchanged, and a file of only empty pages scans to an empty result,
terminating normally at end of file. -/
theorem claim10_scan_transparent_to_empty_pages (schema : Schema) (ps : Nat)
    (hps : 0 < ps) (pre post : List (List Nat)) (emptyImg : List Nat)
    (hpre : ∀ img ∈ pre, img.length = ps)
    (hemp : emptyImg.length = ps) (hhdr : readU16 emptyImg 0 = 0) :
    scanFile schema ps ((pre ++ [emptyImg] ++ post).flatten)
      = scanFile schema ps ((pre ++ post).flatten) ∧
    (∀ k, scanFile schema ps (List.replicate k (List.replicate ps 0)).flatten
      = .ok []) :=
  ⟨scanFile_skip_empty schema ps hps emptyImg hemp hhdr pre post hpre,
    scanFile_all_empty schema ps hps⟩

/-- Witness for C10's theorem at page size 8. -/
theorem claim10_scan_transparent_to_empty_pages_witness :
    0 < 8 ∧
    (∀ img ∈ ([] : List (List Nat)), img.length = 8) ∧
    (List.replicate 8 (0 : Nat)).length = 8 ∧
    readU16 (List.replicate 8 0) 0 = 0 ∧
    (scanFile mSchema 8 ((([] : List (List Nat)) ++ [List.replicate 8 0]
          ++ ([] : List (List Nat))).flatten)
        = scanFile mSchema 8 ((([] : List (List Nat))
          ++ ([] : List (List Nat))).flatten) ∧
      (∀ k, scanFile mSchema 8
          (List.replicate k (List.replicate 8 0)).flatten = .ok [])) :=
  ⟨by decide, by decide, by decide, by decide,
    claim10_scan_transparent_to_empty_pages mSchema 8 (by decide) [] []
      (List.replicate 8 0) (by decide) (by decide) (by decide)⟩

/-! ## Claim C5, counterexample — limit 0 returns every row -/

/-- Counterexample to claim C5: over a one-row table (`oneRowFile`), a query
with `limit_clause = 0` must return `min(0, 1) = 0` rows per the claim, but
executing it returns the full row: `if s.limit_clause:` is false for `0`, so
the planner builds no `LimitNode` at all. -/
theorem claim5_limit_zero_returns_all_rows :
    executeQuery ⟨⟨mSchema⟩, none, none, none, some 0⟩ oneRowFile
      = .ok [[Value.uint 7]] ∧
    ([[Value.uint 7]] : List Row).length ≠ min 0 ([[Value.uint 7]] : List Row).length := by
  obtain ⟨p', hins, hsch', hrep'⟩ :=
    pageRep_insertRecord defaultPageSize (HeapPage.new mSchema defaultPageSize)
      [] [Value.uint 7] [7, 0, 0, 0]
      (pageRep_new mSchema defaultPageSize (by decide) (by decide))
      (by rfl)
      (by rw [pageRep_freeBytes (pageRep_new mSchema defaultPageSize
            (by decide) (by decide))]
          simp [sumLens]
          decide)
  have hfile : oneRowFile = p'.buff := by
    unfold oneRowFile
    rw [hins]
    rfl
  have hrows : pageRows mSchema p'.buff = .ok [[Value.uint 7]] :=
    pageRows_of_rep mSchema defaultPageSize p' ([] ++ [[7, 0, 0, 0]])
      [[Value.uint 7]] hrep'
      (List.Forall₂.cons (by decide) List.Forall₂.nil)
  have hscan : scanFile mSchema defaultPageSize oneRowFile
      = .ok [[Value.uint 7]] := by
    rw [hfile]
    have h := scanFile_cons_page mSchema defaultPageSize p'.buff []
      (by decide) hrep'.hlen
    rw [List.append_nil] at h
    rw [h, hrows, scanFile_nil]
    rfl
  constructor
  · unfold executeQuery queryStreamRows
    rw [show (⟨⟨mSchema⟩, none, none, none, some 0⟩ :
        AbstractQuery).fromClause.schema = mSchema from rfl]
    rw [hscan]
    rfl
  · decide

end ToyDbms
